import Mathlib

/-!
Shallow embedding of the Shared Memory Object Store (SMOS) data-plane core:
the `DataTrack` state machine from `SMOS_data_track.py`, the `EntryConfig`
descriptor from `SMOS_utils.py`, the multi-track `SharedMemoryObject` fan-out
from `SMOS_shared_memory_object.py`, and the store-level batched read from
`SMOS_shared_memory_object_store.py`.

Python dictionaries are modelled as insertion-ordered association lists, the
`queue.Queue` free-block pool as a FIFO list (`get` from the front, `put` at
the back), and Python exceptions as an `SMOSError` result carried next to the
post-mutation state (CPython mutations performed before a `raise` survive the
exception, which matters for several of the properties below).
-/

namespace SMOS

/-! ## Definitions: the embedded data model and operations -/

/-- Status codes from `SMOS_constants.py`. -/
def SMOS_SUCCESS : Int := 0

/-- Status code returned when an operation fails (entry missing, track empty, no free block). -/
def SMOS_FAIL : Int := -1

/-- Status code returned when pending readers block a destructive operation. -/
def SMOS_PERMISSION_DENIED : Int := 1

/-- The exception classes of `SMOS_exceptions.py` that the embedded code can raise. -/
inductive SMOSError where
  | entryUnallocated
  | trackMismatch
  | blockDoubleRelease
  | readRefDoubleRelease
  | mappingError
  | trackUnaligned
  | objectNotFound
  deriving DecidableEq, Repr

/-- `EntryConfig` from `SMOS_utils.py`: per-entry descriptor holding the data
type tag, placement information and the pending-reader count.  `dtype` and
`shape` are payload metadata the store treats as opaque. -/
structure EntryConfig where
  dtype : Option String
  shape : Option (List Nat)
  is_numpy : Bool
  track_name : Option String
  mapped_block_idx : Int
  pending_readers : Int
  deriving DecidableEq, Repr

/-- Lookup in an insertion-ordered Python dict (`d[k]` read access). -/
def dictGet {α : Type} (l : List (Nat × α)) (k : Nat) : Option α :=
  match l with
  | [] => none
  | (k', v) :: rest => if k' = k then some v else dictGet rest k

/-- Assignment `d[k] = v` in an insertion-ordered Python dict: updates an
existing key in place, otherwise appends at the end. -/
def dictSet {α : Type} (l : List (Nat × α)) (k : Nat) (v : α) : List (Nat × α) :=
  match l with
  | [] => [(k, v)]
  | (k', v') :: rest => if k' = k then (k, v) :: rest else (k', v') :: dictSet rest k v

/-- Deletion `del d[k]` in an insertion-ordered Python dict. -/
def dictErase {α : Type} (l : List (Nat × α)) (k : Nat) : List (Nat × α) :=
  match l with
  | [] => []
  | (k', v') :: rest => if k' = k then rest else (k', v') :: dictErase rest k

/-- `list(d.keys())` of an insertion-ordered Python dict. -/
def dictKeys {α : Type} (l : List (Nat × α)) : List Nat :=
  l.map Prod.fst

/-- `DataTrack` state from `SMOS_data_track.py`: the live-entry map
`entry_config_list`, the `next_key` counter and the FIFO free-block pool. -/
structure DataTrack where
  track_name : String
  block_size : Nat
  max_capacity : Nat
  entry_config_list : List (Nat × EntryConfig)
  next_key : Nat
  free_block_list : List Int
  deriving DecidableEq, Repr

/-- `DataTrack.__init__`: empty live map, `next_key = 0`, free pool holding
blocks `0 .. max_capacity - 1` in order. -/
def DataTrack.init (track_name : String) (block_size max_capacity : Nat) : DataTrack :=
  { track_name := track_name
    block_size := block_size
    max_capacity := max_capacity
    entry_config_list := []
    next_key := 0
    free_block_list := (List.range max_capacity).map Int.ofNat }

/-- `DataTrack.allocate_block`: pop the front of the free pool into the
caller's `entry_config` (also stamping the track name); `SMOS_FAIL` when the
pool is empty.  Returns (status, updated config, updated track). -/
def DataTrack.allocate_block (t : DataTrack) (entry_config : EntryConfig) :
    Int × EntryConfig × DataTrack :=
  match t.free_block_list with
  | [] => (SMOS_FAIL, entry_config, t)
  | block_idx :: rest =>
      (SMOS_SUCCESS,
       { entry_config with mapped_block_idx := block_idx, track_name := some t.track_name },
       { t with free_block_list := rest })

/-- `DataTrack.append_entry_config`: raises on an unallocated or mismatched
config, otherwise inserts it under `next_key` and advances the counter,
returning the assigned key. -/
def DataTrack.append_entry_config (t : DataTrack) (entry_config : EntryConfig) :
    Except SMOSError (Int × Nat) × DataTrack :=
  if entry_config.mapped_block_idx = -1 then
    (.error .entryUnallocated, t)
  else if ¬ entry_config.track_name = some t.track_name then
    (.error .trackMismatch, t)
  else
    let t' := { t with
                entry_config_list := dictSet t.entry_config_list t.next_key entry_config
                next_key := t.next_key + 1 }
    (.ok (SMOS_SUCCESS, t'.next_key - 1), t')

/-- `DataTrack.read_entry_config`: increment the pending-reader count of the
entry at `idx` and return the (updated) config; `SMOS_FAIL` on a missing key. -/
def DataTrack.read_entry_config (t : DataTrack) (idx : Nat) :
    (Int × Option EntryConfig) × DataTrack :=
  match dictGet t.entry_config_list idx with
  | none => ((SMOS_FAIL, none), t)
  | some c =>
      let c' := { c with pending_readers := c.pending_readers + 1 }
      ((SMOS_SUCCESS, some c'),
       { t with entry_config_list := dictSet t.entry_config_list idx c' })

/-- `DataTrack.read_latest_entry_config`: read (and add a reader reference to)
the entry with the largest live key; `SMOS_FAIL` when the track is empty.
The inner `none` branch is unreachable: the maximal key is a key of the map. -/
def DataTrack.read_latest_entry_config (t : DataTrack) :
    (Int × Option Nat × Option EntryConfig) × DataTrack :=
  match (dictKeys t.entry_config_list).max? with
  | none => ((SMOS_FAIL, none, none), t)
  | some idx =>
      match dictGet t.entry_config_list idx with
      | none => ((SMOS_FAIL, none, none), t)
      | some c =>
          let c' := { c with pending_readers := c.pending_readers + 1 }
          ((SMOS_SUCCESS, some idx, some c'),
           { t with entry_config_list := dictSet t.entry_config_list idx c' })

/-- `DataTrack.release_read_reference`: decrement the pending-reader count,
then raise `SMOSReadRefDoubleRelease` if the stored count became negative.
The decrement happens before the check, so it survives the raise. -/
def DataTrack.release_read_reference (t : DataTrack) (idx : Nat) :
    Except SMOSError Int × DataTrack :=
  match dictGet t.entry_config_list idx with
  | none => (.ok SMOS_FAIL, t)
  | some c =>
      let c' := { c with pending_readers := c.pending_readers - 1 }
      let t' := { t with entry_config_list := dictSet t.entry_config_list idx c' }
      if c'.pending_readers < 0 then (.error .readRefDoubleRelease, t')
      else (.ok SMOS_SUCCESS, t')

/-- `DataTrack.delete_entry_config`: permission check against pending
readers (unless forced), then remove the descriptor and return its block to
the free pool; raises `SMOSBlockDoubleRelease` (after the removal) if the
block is already free. -/
def DataTrack.delete_entry_config (t : DataTrack) (idx : Nat) (force_delete : Bool) :
    Except SMOSError Int × DataTrack :=
  match dictGet t.entry_config_list idx with
  | none => (.ok SMOS_FAIL, t)
  | some c =>
      if ¬ c.pending_readers = 0 ∧ ¬ force_delete = true then
        (.ok SMOS_PERMISSION_DENIED, t)
      else
        let block_idx := c.mapped_block_idx
        let t' := { t with entry_config_list := dictErase t.entry_config_list idx }
        if block_idx ∈ t'.free_block_list then
          (.error .blockDoubleRelease, t')
        else
          (.ok SMOS_SUCCESS, { t' with free_block_list := t'.free_block_list ++ [block_idx] })

/-- `DataTrack.pop_entry_config`: take the descriptor of the smallest live
key, subject to the pending-reader guard; the block is not returned to the
pool.  The inner `none` branch is unreachable (the minimal key is a key). -/
def DataTrack.pop_entry_config (t : DataTrack) (force_pop : Bool) :
    (Int × Option EntryConfig) × DataTrack :=
  match (dictKeys t.entry_config_list).min? with
  | none => ((SMOS_FAIL, none), t)
  | some entry_idx =>
      match dictGet t.entry_config_list entry_idx with
      | none => ((SMOS_FAIL, none), t)
      | some c =>
          if ¬ c.pending_readers = 0 ∧ ¬ force_pop = true then
            ((SMOS_PERMISSION_DENIED, none), t)
          else
            ((SMOS_SUCCESS, some c),
             { t with entry_config_list := dictErase t.entry_config_list entry_idx })

/-- `DataTrack.free_block_mapping`: return a popped descriptor's block to the
pool; raises on a track mismatch or if the block is already free. -/
def DataTrack.free_block_mapping (t : DataTrack) (entry_config : EntryConfig) :
    Except SMOSError Int × DataTrack :=
  if ¬ entry_config.track_name = some t.track_name then
    (.error .trackMismatch, t)
  else
    let block_idx := entry_config.mapped_block_idx
    if block_idx ∈ t.free_block_list then
      (.error .blockDoubleRelease, t)
    else
      (.ok SMOS_SUCCESS, { t with free_block_list := t.free_block_list ++ [block_idx] })

/-- `DataTrack.get_entry_offset`: `block_idx * block_size`, raising
`SMOSMappingError` when `mapped_block_idx ≥ max_capacity` and
`SMOSTrackMismatch` on a foreign descriptor.  Pure (no state change). -/
def DataTrack.get_entry_offset (t : DataTrack) (entry_config : EntryConfig) :
    Except SMOSError (Int × Int) :=
  if ¬ entry_config.track_name = some t.track_name then
    .error .trackMismatch
  else if (t.max_capacity : Int) ≤ entry_config.mapped_block_idx then
    .error .mappingError
  else
    .ok (SMOS_SUCCESS, entry_config.mapped_block_idx * (t.block_size : Int))

/-- A freshly constructed `EntryConfig` as produced by `EntryConfig.__init__`
with the default placement arguments (`track_name=None, mapped_block_idx=-1`). -/
def freshCfg : EntryConfig :=
  { dtype := none, shape := none, is_numpy := false, track_name := none,
    mapped_block_idx := -1, pending_readers := 0 }

/-- Allocate a block for a fresh config and append it: the track-level write
path of one push. -/
def DataTrack.pushFresh (t : DataTrack) : DataTrack :=
  let r := t.allocate_block freshCfg
  (r.2.2.append_entry_config r.2.1).2

/-- A track holding a single committed entry whose stored pending-reader
count is 1, as after one push and one unreleased read. -/
def busyCfg : EntryConfig :=
  { dtype := none, shape := none, is_numpy := false, track_name := some "t",
    mapped_block_idx := 0, pending_readers := 1 }

/-- A two-block track with the single entry `busyCfg` live under key 0. -/
def busyTrack : DataTrack :=
  { track_name := "t", block_size := 4, max_capacity := 2,
    entry_config_list := [(0, busyCfg)],
    next_key := 1, free_block_list := [1] }

/-- All live descriptors of a track carry a nonnegative pending-reader count. -/
def TrackNonneg (t : DataTrack) : Prop :=
  ∀ p ∈ t.entry_config_list, 0 ≤ p.2.pending_readers

/-- Run `n` successive `allocate_block` calls, each on a freshly constructed
config, collecting the (status, config) results. -/
def allocRun (t : DataTrack) (n : Nat) : List (Int × EntryConfig) × DataTrack :=
  match n with
  | 0 => ([], t)
  | n + 1 =>
      let r := t.allocate_block freshCfg
      let r2 := allocRun r.2.2 n
      ((r.1, r.2.1) :: r2.1, r2.2)

/-- Run a sequence of `append_entry_config` calls, collecting the results. -/
def appendRun (t : DataTrack) (cs : List EntryConfig) :
    List (Except SMOSError (Int × Nat)) × DataTrack :=
  match cs with
  | [] => ([], t)
  | c :: rest =>
      let r := t.append_entry_config c
      let r2 := appendRun r.2 rest
      (r.1 :: r2.1, r2.2)

/-- Run `n` successive `pop_entry_config` calls, collecting the results. -/
def popRun (t : DataTrack) (n : Nat) (force : Bool) :
    List (Int × Option EntryConfig) × DataTrack :=
  match n with
  | 0 => ([], t)
  | n + 1 =>
      let r := t.pop_entry_config force
      let r2 := popRun r.2 n force
      (r.1 :: r2.1, r2.2)

/-- An allocated descriptor for block 0 of a track named `q`. -/
def cfgA : EntryConfig :=
  { freshCfg with mapped_block_idx := 0, track_name := some "q" }

/-- An allocated descriptor for block 1 of a track named `q`. -/
def cfgB : EntryConfig :=
  { freshCfg with mapped_block_idx := 1, track_name := some "q" }

structure SysState where
  track : DataTrack
  allocated : List EntryConfig
  popped : List EntryConfig
  deriving DecidableEq, Repr

/-- One external operation on a track, as issued by a caller. -/
inductive Op where
  | alloc (c : EntryConfig)
  | append (i : Nat)
  | read (k : Nat)
  | readLatest
  | release (k : Nat)
  | delete (k : Nat) (force : Bool)
  | pop (force : Bool)
  | free (i : Nat)
  deriving DecidableEq, Repr

/-- Execute one operation: run the corresponding `DataTrack` method, move the
caller-held descriptors accordingly, and report the key returned by a
successful append (if any). -/
def stepOp (s : SysState) (op : Op) : SysState × Option Nat :=
  match op with
  | .alloc c =>
      let r := s.track.allocate_block c
      if r.1 = SMOS_SUCCESS then
        ({ track := r.2.2, allocated := s.allocated ++ [r.2.1], popped := s.popped }, none)
      else
        ({ s with track := r.2.2 }, none)
  | .append i =>
      match s.allocated[i]? with
      | none => (s, none)
      | some c =>
          let r := s.track.append_entry_config c
          match r.1 with
          | .ok kr =>
              ({ track := r.2, allocated := s.allocated.eraseIdx i, popped := s.popped },
               some kr.2)
          | .error _ => (s, none)
  | .read k => ({ s with track := (s.track.read_entry_config k).2 }, none)
  | .readLatest => ({ s with track := s.track.read_latest_entry_config.2 }, none)
  | .release k => ({ s with track := (s.track.release_read_reference k).2 }, none)
  | .delete k force => ({ s with track := (s.track.delete_entry_config k force).2 }, none)
  | .pop force =>
      let r := s.track.pop_entry_config force
      match r.1.2 with
      | some c => ({ track := r.2, allocated := s.allocated, popped := s.popped ++ [c] }, none)
      | none => ({ s with track := r.2 }, none)
  | .free i =>
      match s.popped[i]? with
      | none => (s, none)
      | some c =>
          let r := s.track.free_block_mapping c
          match r.1 with
          | .ok _ =>
              ({ track := r.2, allocated := s.allocated, popped := s.popped.eraseIdx i }, none)
          | .error _ => (s, none)

/-- Execute a sequence of operations, collecting the keys returned by
successful appends in order. -/
def runOps (s : SysState) (ops : List Op) : SysState × List Nat :=
  match ops with
  | [] => (s, [])
  | op :: rest =>
      let r := stepOp s op
      let r2 := runOps r.1 rest
      (r2.1, r.2.toList ++ r2.2)

/-- A fresh system: a fresh track, no caller-held descriptors. -/
def initSys (name : String) (bs cap : Nat) : SysState :=
  { track := DataTrack.init name bs cap, allocated := [], popped := [] }

/-- The blocks of the track's live entries, as stored in their descriptors. -/
def liveBlocks (t : DataTrack) : List Int :=
  t.entry_config_list.map (fun p => p.2.mapped_block_idx)

/-- The blocks of a list of caller-held descriptors. -/
def heldBlocks (cs : List EntryConfig) : List Int :=
  cs.map (fun c => c.mapped_block_idx)

/-- All block indices of the system, over the four bins: free pool, live
entries, allocated-but-not-appended descriptors, popped-but-not-freed
descriptors. -/
def blockBins (s : SysState) : Multiset Int :=
  (s.track.free_block_list : Multiset Int) + (liveBlocks s.track : Multiset Int) +
    (heldBlocks s.allocated : Multiset Int) + (heldBlocks s.popped : Multiset Int)

/-- The three bins named by the specification: free pool, live entries,
popped-but-not-freed descriptors. -/
def threeBins (s : SysState) : Multiset Int :=
  (s.track.free_block_list : Multiset Int) + (liveBlocks s.track : Multiset Int) +
    (heldBlocks s.popped : Multiset Int)

/-- System invariant: the four bins partition the full block range, and all
live keys are below `next_key`. -/
def SysInv (cap : Nat) (s : SysState) : Prop :=
  blockBins s = ((List.range cap).map Int.ofNat : Multiset Int) ∧
  ∀ k ∈ dictKeys s.track.entry_config_list, k < s.track.next_key

/-- `SharedMemoryObject` from `SMOS_shared_memory_object.py`: a named set of
aligned tracks. -/
structure SharedMemoryObject where
  name : String
  track_count : Nat
  max_capacity : Nat
  track_list : List DataTrack
  deriving DecidableEq, Repr

/-- `SharedMemoryObject.read_entry_config`: fan the read out to every track,
collect the per-track statuses, and require them to agree (the Python code
checks `len(set(status_list)) == 1` and raises `TrackUnaligned` otherwise);
the per-track reader-count increments persist in every case. -/
def SharedMemoryObject.read_entry_config (o : SharedMemoryObject) (idx : Nat) :
    Except SMOSError (Int × Option (List (Option EntryConfig))) × SharedMemoryObject :=
  let results := o.track_list.map (fun tr => tr.read_entry_config idx)
  let o' := { o with track_list := results.map (fun r => r.2) }
  match results.map (fun r => r.1.1) with
  | [] => (.error .trackUnaligned, o')
  | s0 :: restStatus =>
      if restStatus.all (fun st => st == s0) then
        if s0 = SMOS_SUCCESS then
          (.ok (SMOS_SUCCESS, some (results.map (fun r => r.1.2))), o')
        else (.ok (SMOS_FAIL, none), o')
      else (.error .trackUnaligned, o')

/-- The store catalog from `SMOS_shared_memory_object_store.py`. -/
structure SharedMemoryObjectStore where
  object_dict : List (String × SharedMemoryObject)
  deriving DecidableEq, Repr

/-- Name lookup in the store catalog. -/
def objDictGet (l : List (String × SharedMemoryObject)) (name : String) :
    Option SharedMemoryObject :=
  match l with
  | [] => none
  | (n, o) :: rest => if n = name then some o else objDictGet rest name

/-- Catalog update in place (the Python code mutates the stored object
through its shared reference). -/
def objDictSet (l : List (String × SharedMemoryObject)) (name : String)
    (o : SharedMemoryObject) : List (String × SharedMemoryObject) :=
  match l with
  | [] => [(name, o)]
  | (n, o') :: rest =>
      if n = name then (name, o) :: rest else (n, o') :: objDictSet rest name o

/-- The query loop of `SharedMemoryObjectStore.batch_read_entry_config`:
read each index in turn, collecting per-entry config lists, breaking at the
first failed read with overall status `SMOS_FAIL`. -/
def batchLoop (o : SharedMemoryObject) (idxs : List Nat) :
    Except SMOSError (Int × List (Option (List (Option EntryConfig)))) ×
      SharedMemoryObject :=
  match idxs with
  | [] => (.ok (SMOS_SUCCESS, []), o)
  | idx :: rest =>
      match o.read_entry_config idx with
      | (.error e, o') => (.error e, o')
      | (.ok r, o') =>
          if r.1 = SMOS_SUCCESS then
            match batchLoop o' rest with
            | (.error e, o'') => (.error e, o'')
            | (.ok r2, o'') => (.ok (r2.1, r.2 :: r2.2), o'')
          else
            (.ok (SMOS_FAIL, [r.2]), o')

/-- `SharedMemoryObjectStore.batch_read_entry_config`: raise `ObjectNotFound`
for a missing name, else run the query loop; on overall failure return
`(SMOS_FAIL, None)` while keeping the reader increments already performed. -/
def SharedMemoryObjectStore.batch_read_entry_config
    (store : SharedMemoryObjectStore) (name : String) (idx_batch : List Nat) :
    Except SMOSError (Int × Option (List (Option (List (Option EntryConfig))))) ×
      SharedMemoryObjectStore :=
  match objDictGet store.object_dict name with
  | none => (.error .objectNotFound, store)
  | some o =>
      match batchLoop o idx_batch with
      | (.error e, o') =>
          (.error e,
           { store with object_dict := objDictSet store.object_dict name o' })
      | (.ok r, o') =>
          let store' :=
            { store with object_dict := objDictSet store.object_dict name o' }
          if r.1 = SMOS_SUCCESS then (.ok (SMOS_SUCCESS, some r.2), store')
          else (.ok (SMOS_FAIL, none), store')

/-- The state effect on one track of reading the keys `ks` in order. -/
def trackReadFold (tr : DataTrack) (ks : List Nat) : DataTrack :=
  ks.foldl (fun t k => (t.read_entry_config k).2) tr

/-- A one-track object holding `busyTrack`, and a store cataloguing it. -/
def sampleObj : SharedMemoryObject :=
  { name := "q", track_count := 1, max_capacity := 2, track_list := [busyTrack] }

/-- A store with the single object `sampleObj` under name `q`. -/
def sampleStore : SharedMemoryObjectStore :=
  { object_dict := [("q", sampleObj)] }

/-- A Python value a `for` statement may try to iterate over: an integer or
a list of integers. -/
inductive PyVal where
  | int (n : Nat)
  | list (elems : List Nat)
  deriving DecidableEq, Repr

/-- Iteration of a Python `for` loop over a value: a list yields its
elements in order; an integer is not iterable, so the loop raises
`TypeError` before its first iteration. -/
def pyIter : PyVal → Except String (List Nat)
  | .int _ => .error "TypeError"
  | .list es => .ok es

/-- The track indices visited by the copy-into-shared-memory loop of
`Client.push_to_object` as written in the source:
`for track_idx in track_count`, iterating over the integer itself. -/
def pushCopyLoopIndices (track_count : Nat) : Except String (List Nat) :=
  pyIter (.int track_count)

/-- Modelled from the spec: the copy loop the specification prescribes,
`for track_idx in range(track_count)`. -/
def pushCopyLoopIndicesSpec (track_count : Nat) : Except String (List Nat) :=
  pyIter (.list (List.range track_count))

/-! ## Theorems -/

theorem natMin?_eq_some_iff {xs : List Nat} {a : Nat} :
    xs.min? = some a ↔ a ∈ xs ∧ ∀ b ∈ xs, a ≤ b :=
  List.min?_eq_some_iff (fun a => le_refl a) (fun a b => min_choice a b)
    (fun _ _ _ => le_min_iff)

theorem natMax?_eq_some_iff {xs : List Nat} {a : Nat} :
    xs.max? = some a ↔ a ∈ xs ∧ ∀ b ∈ xs, b ≤ a :=
  List.max?_eq_some_iff (fun a => le_refl a) (fun a b => max_choice a b)
    (fun _ _ _ => max_le_iff)

theorem dictGet_eq_none {α : Type} {l : List (Nat × α)} {k : Nat} :
    dictGet l k = none ↔ k ∉ dictKeys l := by
  induction l with
  | nil => simp [dictGet, dictKeys]
  | cons p rest ih =>
      obtain ⟨k', v⟩ := p
      by_cases h : k' = k <;> simp [dictGet, dictKeys, h, ih, Ne.symm]

theorem dictGet_isSome_of_mem {α : Type} {l : List (Nat × α)} {k : Nat}
    (h : k ∈ dictKeys l) : ∃ c, dictGet l k = some c := by
  cases hg : dictGet l k with
  | none => exact absurd h (dictGet_eq_none.mp hg)
  | some c => exact ⟨c, rfl⟩

theorem dictGet_set_self {α : Type} {l : List (Nat × α)} {k : Nat} {v : α} :
    dictGet (dictSet l k v) k = some v := by
  induction l with
  | nil => simp [dictGet, dictSet]
  | cons p rest ih =>
      obtain ⟨k', v'⟩ := p
      by_cases h : k' = k <;> simp [dictGet, dictSet, h, ih]

theorem dictGet_set_ne {α : Type} {l : List (Nat × α)} {k k' : Nat} {v : α}
    (h : ¬ k = k') : dictGet (dictSet l k v) k' = dictGet l k' := by
  induction l with
  | nil => simp [dictGet, dictSet, h]
  | cons p rest ih =>
      obtain ⟨k₁, v₁⟩ := p
      by_cases h₁ : k₁ = k
      · subst h₁; simp [dictGet, dictSet, h]
      · simp [dictGet, dictSet, h₁]
        by_cases h₂ : k₁ = k' <;> simp [h₂, ih]

theorem dictKeys_nil {α : Type} : dictKeys ([] : List (Nat × α)) = [] := rfl

theorem dictKeys_cons {α : Type} (p : Nat × α) (l : List (Nat × α)) :
    dictKeys (p :: l) = p.1 :: dictKeys l := rfl

theorem dictKeys_set_of_mem {α : Type} {l : List (Nat × α)} {k : Nat} {v : α}
    (h : k ∈ dictKeys l) : dictKeys (dictSet l k v) = dictKeys l := by
  induction l with
  | nil => simp [dictKeys] at h
  | cons p rest ih =>
      obtain ⟨k₁, v₁⟩ := p
      by_cases h₁ : k₁ = k
      · simp [dictKeys, dictSet, h₁]
      · rw [dictKeys_cons] at h
        have h' : k ∈ dictKeys rest := by
          rcases List.mem_cons.mp h with h | h
          · exact absurd h.symm h₁
          · exact h
        simp [dictKeys_cons, dictSet, h₁, ih h']

theorem dictSet_of_not_mem {α : Type} {l : List (Nat × α)} {k : Nat} {v : α}
    (h : ¬ k ∈ dictKeys l) : dictSet l k v = l ++ [(k, v)] := by
  induction l with
  | nil => simp [dictSet]
  | cons p rest ih =>
      obtain ⟨k₁, v₁⟩ := p
      simp [dictKeys] at h ih
      simp [dictSet, Ne.symm h.1, ih h.2]

theorem mem_of_mem_dictSet {α : Type} {l : List (Nat × α)} {k : Nat} {v : α}
    {p : Nat × α} (h : p ∈ dictSet l k v) : p = (k, v) ∨ p ∈ l := by
  induction l with
  | nil => simpa [dictSet] using h
  | cons q rest ih =>
      obtain ⟨k₁, v₁⟩ := q
      by_cases h₁ : k₁ = k
      · simp [dictSet, h₁] at h
        rcases h with h | h
        · left; simp [h]
        · right; simp [h]
      · simp [dictSet, h₁] at h
        rcases h with h | h
        · right; simp [h]
        · rcases ih h with h' | h'
          · exact Or.inl h'
          · exact Or.inr (List.mem_cons_of_mem _ h')

theorem mem_of_mem_dictErase {α : Type} {l : List (Nat × α)} {k : Nat}
    {p : Nat × α} (h : p ∈ dictErase l k) : p ∈ l := by
  induction l with
  | nil => simp [dictErase] at h
  | cons q rest ih =>
      obtain ⟨k₁, v₁⟩ := q
      by_cases h₁ : k₁ = k
      · simp [dictErase, h₁] at h
        exact List.mem_cons_of_mem _ h
      · simp [dictErase, h₁] at h
        rcases h with h | h
        · simp [h]
        · exact List.mem_cons_of_mem _ (ih h)

theorem dict_perm_erase {α : Type} {l : List (Nat × α)} {k : Nat} {c : α}
    (h : dictGet l k = some c) : List.Perm l ((k, c) :: dictErase l k) := by
  induction l with
  | nil => simp [dictGet] at h
  | cons q rest ih =>
      obtain ⟨k₁, v₁⟩ := q
      by_cases h₁ : k₁ = k
      · subst h₁
        simp [dictGet] at h
        subst h
        simp only [dictErase, if_pos rfl]
        exact List.Perm.refl _
      · simp [dictGet, h₁] at h
        have hp := ih h
        simp only [dictErase, if_neg h₁]
        exact (hp.cons (k₁, v₁)).trans (List.Perm.swap (k, c) (k₁, v₁) (dictErase rest k))

/-- C8: for a descriptor belonging to the track, `get_entry_offset` returns
`mapped_block_idx * block_size` when `mapped_block_idx < max_capacity` and
raises `MappingError` exactly when `mapped_block_idx ≥ max_capacity`; every
returned offset satisfies `offset + block_size ≤ block_size * max_capacity`. -/
theorem get_entry_offset_spec (t : DataTrack) (c : EntryConfig)
    (htrack : c.track_name = some t.track_name) :
    (c.mapped_block_idx < (t.max_capacity : Int) →
      t.get_entry_offset c =
        .ok (SMOS_SUCCESS, c.mapped_block_idx * (t.block_size : Int)) ∧
      c.mapped_block_idx * (t.block_size : Int) + (t.block_size : Int) ≤
        (t.block_size : Int) * (t.max_capacity : Int)) ∧
    ((t.max_capacity : Int) ≤ c.mapped_block_idx →
      t.get_entry_offset c = .error .mappingError) := by
  constructor
  · intro hlt
    refine ⟨?_, ?_⟩
    · simp [DataTrack.get_entry_offset, htrack, not_le.mpr hlt]
    · have hbs : (0 : Int) ≤ (t.block_size : Int) := Int.ofNat_nonneg _
      nlinarith
  · intro hge
    simp [DataTrack.get_entry_offset, htrack, hge]

/-- Witness for C8 at a concrete track and descriptor. -/
theorem get_entry_offset_spec_witness :
    (DataTrack.init "t" 8 4).get_entry_offset
      { dtype := none, shape := none, is_numpy := true, track_name := some "t",
        mapped_block_idx := 2, pending_readers := 0 } =
      .ok (SMOS_SUCCESS, 2 * (8 : Int)) :=
  ((get_entry_offset_spec (DataTrack.init "t" 8 4)
      { dtype := none, shape := none, is_numpy := true, track_name := some "t",
        mapped_block_idx := 2, pending_readers := 0 }
      (by decide)).1 (by decide)).1

theorem allocate_block_eq_empty {t : DataTrack} {c : EntryConfig}
    (h : t.free_block_list = []) : t.allocate_block c = (SMOS_FAIL, c, t) := by
  simp [DataTrack.allocate_block, h]

theorem allocate_block_eq_cons {t : DataTrack} {c : EntryConfig} {b : Int} {rest : List Int}
    (h : t.free_block_list = b :: rest) :
    t.allocate_block c =
      (SMOS_SUCCESS,
       { c with mapped_block_idx := b, track_name := some t.track_name },
       { t with free_block_list := rest }) := by
  simp [DataTrack.allocate_block, h]

theorem append_eq_ok {t : DataTrack} {c : EntryConfig}
    (h1 : ¬ c.mapped_block_idx = -1) (h2 : c.track_name = some t.track_name) :
    t.append_entry_config c =
      (.ok (SMOS_SUCCESS, t.next_key),
       { t with entry_config_list := dictSet t.entry_config_list t.next_key c,
                next_key := t.next_key + 1 }) := by
  simp [DataTrack.append_entry_config, h1, h2]

theorem read_eq_none {t : DataTrack} {k : Nat}
    (h : dictGet t.entry_config_list k = none) :
    t.read_entry_config k = ((SMOS_FAIL, none), t) := by
  simp [DataTrack.read_entry_config, h]

theorem read_eq_some {t : DataTrack} {k : Nat} {c : EntryConfig}
    (h : dictGet t.entry_config_list k = some c) :
    t.read_entry_config k =
      ((SMOS_SUCCESS, some { c with pending_readers := c.pending_readers + 1 }),
       { t with entry_config_list :=
           (dictSet t.entry_config_list k
             { c with pending_readers := c.pending_readers + 1 }) }) := by
  simp [DataTrack.read_entry_config, h]

theorem read_latest_eq_none {t : DataTrack}
    (h : (dictKeys t.entry_config_list).max? = none) :
    t.read_latest_entry_config = ((SMOS_FAIL, none, none), t) := by
  simp [DataTrack.read_latest_entry_config, h]

theorem read_latest_eq_some {t : DataTrack} {k : Nat} {c : EntryConfig}
    (hm : (dictKeys t.entry_config_list).max? = some k)
    (hg : dictGet t.entry_config_list k = some c) :
    t.read_latest_entry_config =
      ((SMOS_SUCCESS, some k, some { c with pending_readers := c.pending_readers + 1 }),
       { t with entry_config_list :=
           (dictSet t.entry_config_list k
             { c with pending_readers := c.pending_readers + 1 }) }) := by
  simp [DataTrack.read_latest_entry_config, hm, hg]

theorem release_eq_none {t : DataTrack} {k : Nat}
    (h : dictGet t.entry_config_list k = none) :
    t.release_read_reference k = (.ok SMOS_FAIL, t) := by
  simp [DataTrack.release_read_reference, h]

theorem release_eq_raise {t : DataTrack} {k : Nat} {c : EntryConfig}
    (hg : dictGet t.entry_config_list k = some c) (hneg : c.pending_readers - 1 < 0) :
    t.release_read_reference k =
      (.error .readRefDoubleRelease,
       { t with entry_config_list :=
           (dictSet t.entry_config_list k
             { c with pending_readers := c.pending_readers - 1 }) }) := by
  simp [DataTrack.release_read_reference, hg, hneg]

theorem release_eq_ok {t : DataTrack} {k : Nat} {c : EntryConfig}
    (hg : dictGet t.entry_config_list k = some c) (hpos : 0 ≤ c.pending_readers - 1) :
    t.release_read_reference k =
      (.ok SMOS_SUCCESS,
       { t with entry_config_list :=
           (dictSet t.entry_config_list k
             { c with pending_readers := c.pending_readers - 1 }) }) := by
  have : ¬ c.pending_readers - 1 < 0 := by omega
  simp [DataTrack.release_read_reference, hg, this]

theorem delete_eq_none {t : DataTrack} {k : Nat} {force : Bool}
    (h : dictGet t.entry_config_list k = none) :
    t.delete_entry_config k force = (.ok SMOS_FAIL, t) := by
  simp [DataTrack.delete_entry_config, h]

theorem delete_eq_denied {t : DataTrack} {k : Nat} {c : EntryConfig}
    (hg : dictGet t.entry_config_list k = some c)
    (hpend : ¬ c.pending_readers = 0) :
    t.delete_entry_config k false = (.ok SMOS_PERMISSION_DENIED, t) := by
  simp [DataTrack.delete_entry_config, hg, hpend]

theorem delete_eq_raise {t : DataTrack} {k : Nat} {force : Bool} {c : EntryConfig}
    (hg : dictGet t.entry_config_list k = some c)
    (hok : c.pending_readers = 0 ∨ force = true)
    (hfree : c.mapped_block_idx ∈ t.free_block_list) :
    t.delete_entry_config k force =
      (.error .blockDoubleRelease,
       { t with entry_config_list := dictErase t.entry_config_list k }) := by
  rcases hok with hz | hf
  · simp [DataTrack.delete_entry_config, hg, hz, hfree]
  · simp [DataTrack.delete_entry_config, hg, hf, hfree]

theorem delete_eq_ok {t : DataTrack} {k : Nat} {force : Bool} {c : EntryConfig}
    (hg : dictGet t.entry_config_list k = some c)
    (hok : c.pending_readers = 0 ∨ force = true)
    (hfree : ¬ c.mapped_block_idx ∈ t.free_block_list) :
    t.delete_entry_config k force =
      (.ok SMOS_SUCCESS,
       { t with entry_config_list := dictErase t.entry_config_list k,
                free_block_list := t.free_block_list ++ [c.mapped_block_idx] }) := by
  rcases hok with hz | hf
  · simp [DataTrack.delete_entry_config, hg, hz, hfree]
  · simp [DataTrack.delete_entry_config, hg, hf, hfree]

theorem pop_eq_none {t : DataTrack} {force : Bool}
    (h : (dictKeys t.entry_config_list).min? = none) :
    t.pop_entry_config force = ((SMOS_FAIL, none), t) := by
  simp [DataTrack.pop_entry_config, h]

theorem pop_eq_denied {t : DataTrack} {k : Nat} {c : EntryConfig}
    (hm : (dictKeys t.entry_config_list).min? = some k)
    (hg : dictGet t.entry_config_list k = some c)
    (hpend : ¬ c.pending_readers = 0) :
    t.pop_entry_config false = ((SMOS_PERMISSION_DENIED, none), t) := by
  simp [DataTrack.pop_entry_config, hm, hg, hpend]

theorem pop_eq_ok (force : Bool) {t : DataTrack} {k : Nat} {c : EntryConfig}
    (hm : (dictKeys t.entry_config_list).min? = some k)
    (hg : dictGet t.entry_config_list k = some c)
    (hok : c.pending_readers = 0 ∨ force = true) :
    t.pop_entry_config force =
      ((SMOS_SUCCESS, some c),
       { t with entry_config_list := dictErase t.entry_config_list k }) := by
  rcases hok with hz | hf
  · simp [DataTrack.pop_entry_config, hm, hg, hz]
  · simp [DataTrack.pop_entry_config, hm, hg, hf]

theorem free_eq_mismatch {t : DataTrack} {c : EntryConfig}
    (h : ¬ c.track_name = some t.track_name) :
    t.free_block_mapping c = (.error .trackMismatch, t) := by
  simp [DataTrack.free_block_mapping, h]

theorem free_eq_raise {t : DataTrack} {c : EntryConfig}
    (htr : c.track_name = some t.track_name)
    (hfree : c.mapped_block_idx ∈ t.free_block_list) :
    t.free_block_mapping c = (.error .blockDoubleRelease, t) := by
  simp [DataTrack.free_block_mapping, htr, hfree]

theorem free_eq_ok {t : DataTrack} {c : EntryConfig}
    (htr : c.track_name = some t.track_name)
    (hfree : ¬ c.mapped_block_idx ∈ t.free_block_list) :
    t.free_block_mapping c =
      (.ok SMOS_SUCCESS,
       { t with free_block_list := t.free_block_list ++ [c.mapped_block_idx] }) := by
  simp [DataTrack.free_block_mapping, htr, hfree]

theorem dictGet_mem {α : Type} {l : List (Nat × α)} {k : Nat} {c : α}
    (h : dictGet l k = some c) : (k, c) ∈ l :=
  (dict_perm_erase h).symm.subset (List.mem_cons_self _ _)

/-- C5: on a missing key `delete_entry_config` returns `SMOS_FAIL` and leaves
the track unchanged; on a live key with pending readers and no force it
returns `SMOS_PERMISSION_DENIED` and leaves the track unchanged; on a live
key with no pending readers (or with force) it removes the descriptor and
appends its block to the free pool. -/
theorem delete_entry_config_spec (t : DataTrack) (k : Nat) (force : Bool) :
    (dictGet t.entry_config_list k = none →
      t.delete_entry_config k force = (.ok SMOS_FAIL, t)) ∧
    (∀ c, dictGet t.entry_config_list k = some c →
      0 < c.pending_readers → force = false →
      t.delete_entry_config k force = (.ok SMOS_PERMISSION_DENIED, t)) ∧
    (∀ c, dictGet t.entry_config_list k = some c →
      (c.pending_readers = 0 ∨ force = true) →
      ¬ c.mapped_block_idx ∈ t.free_block_list →
      t.delete_entry_config k force =
        (.ok SMOS_SUCCESS,
         { t with entry_config_list := dictErase t.entry_config_list k,
                  free_block_list := t.free_block_list ++ [c.mapped_block_idx] })) := by
  refine ⟨?_, ?_, ?_⟩
  · intro h
    simp [DataTrack.delete_entry_config, h]
  · intro c hc hpend hforce
    have : ¬ c.pending_readers = 0 := by omega
    simp [DataTrack.delete_entry_config, hc, this, hforce]
  · intro c hc hperm hfree
    rcases hperm with hz | hf
    · simp [DataTrack.delete_entry_config, hc, hz, hfree]
    · simp [DataTrack.delete_entry_config, hc, hf, hfree]

/-- Witness for C5: a pending reader blocks an unforced delete on a concrete
track. -/
theorem delete_entry_config_spec_witness :
    busyTrack.delete_entry_config 0 false = (.ok SMOS_PERMISSION_DENIED, busyTrack) :=
  (delete_entry_config_spec busyTrack 0 false).2.1 busyCfg (by decide) (by decide) rfl

/-- C6: `read_latest_entry_config` fails exactly on an empty live map, and on
a nonempty map it returns the largest live key together with its descriptor,
whose stored pending-reader count it increments. -/
theorem read_latest_entry_config_spec (t : DataTrack) :
    (t.read_latest_entry_config.1.1 = SMOS_FAIL ↔ t.entry_config_list = []) ∧
    (∀ k, (dictKeys t.entry_config_list).max? = some k →
      (∀ k' ∈ dictKeys t.entry_config_list, k' ≤ k) ∧
      ∃ c, dictGet t.entry_config_list k = some c ∧
        t.read_latest_entry_config =
          ((SMOS_SUCCESS, some k,
            some { c with pending_readers := c.pending_readers + 1 }),
           { t with entry_config_list :=
               (dictSet t.entry_config_list k
                 { c with pending_readers := c.pending_readers + 1 }) })) := by
  constructor
  · cases hm : (dictKeys t.entry_config_list).max? with
    | none =>
        have hnil : t.entry_config_list = [] := by
          cases hl : t.entry_config_list with
          | nil => rfl
          | cons p rest =>
              rw [hl, dictKeys_cons, List.max?_cons] at hm
              simp at hm
        rw [read_latest_eq_none hm]
        simp [hnil]
    | some k =>
        have hmem : k ∈ dictKeys t.entry_config_list := (natMax?_eq_some_iff.mp hm).1
        obtain ⟨c, hc⟩ := dictGet_isSome_of_mem hmem
        have hne : t.entry_config_list ≠ [] := by
          intro hl
          rw [hl] at hmem
          simp [dictKeys] at hmem
        rw [read_latest_eq_some hm hc]
        simp only [SMOS_FAIL, SMOS_SUCCESS]
        norm_num
        exact hne
  · intro k hm
    have hspec := natMax?_eq_some_iff.mp hm
    obtain ⟨c, hc⟩ := dictGet_isSome_of_mem hspec.1
    refine ⟨hspec.2, c, hc, ?_⟩
    simp [DataTrack.read_latest_entry_config, hm, hc]

/-- Witness for C6: appending three entries (keys 0, 1, 2) and deleting
key 2 makes read-latest yield key 1. -/
theorem read_latest_entry_config_spec_witness :
    (((((DataTrack.init "t" 4 3).pushFresh.pushFresh.pushFresh).delete_entry_config
        2 false).2).read_latest_entry_config).1.2.1 = some 1 := by
  obtain ⟨-, c, hc, heq⟩ :=
    (read_latest_entry_config_spec
      ((((DataTrack.init "t" 4 3).pushFresh.pushFresh.pushFresh).delete_entry_config
        2 false).2)).2 1 (by decide)
  rw [heq]

/-- C4 (counterexample): starting from a fresh track with one appended entry,
an unmatched `release_read_reference` signals `SMOSReadRefDoubleRelease`, but
since the decrement precedes the check, the raising call leaves the stored
descriptor with `pending_readers = -1`: the track state after the raise does
carry a negative stored pending-reader count. -/
theorem release_decrement_survives_raise :
    (((DataTrack.init "t" 4 1).pushFresh.release_read_reference 0).1 =
      .error .readRefDoubleRelease) ∧
    dictGet (((DataTrack.init "t" 4 1).pushFresh.release_read_reference 0).2).entry_config_list
        0 =
      some { dtype := none, shape := none, is_numpy := false, track_name := some "t",
             mapped_block_idx := 0, pending_readers := -1 } := by
  exact ⟨rfl, rfl⟩

/-- C4 (amended): every operation that does not signal `DoubleRelease`
preserves nonnegativity of all stored pending-reader counts (appending a
descriptor with a nonnegative count), and a release on an entry whose stored
count is zero — one without a matching prior read — signals `DoubleRelease`;
only such a raising release can store a negative count. -/
theorem pending_readers_nonneg (t : DataTrack) (h : TrackNonneg t) :
    (∀ c, TrackNonneg (t.allocate_block c).2.2) ∧
    (∀ c, 0 ≤ c.pending_readers → TrackNonneg (t.append_entry_config c).2) ∧
    (∀ k, TrackNonneg (t.read_entry_config k).2) ∧
    TrackNonneg t.read_latest_entry_config.2 ∧
    (∀ k, ¬ (t.release_read_reference k).1 = .error .readRefDoubleRelease →
      TrackNonneg (t.release_read_reference k).2) ∧
    (∀ k c, dictGet t.entry_config_list k = some c → c.pending_readers = 0 →
      (t.release_read_reference k).1 = .error .readRefDoubleRelease) ∧
    (∀ k force, TrackNonneg (t.delete_entry_config k force).2) ∧
    (∀ force, TrackNonneg (t.pop_entry_config force).2) ∧
    (∀ c, TrackNonneg (t.free_block_mapping c).2) := by
  have hsetNonneg : ∀ (k : Nat) (c' : EntryConfig), 0 ≤ c'.pending_readers →
      ∀ p ∈ dictSet t.entry_config_list k c', 0 ≤ p.2.pending_readers := by
    intro k c' hc' p hp
    rcases mem_of_mem_dictSet hp with rfl | hp'
    · exact hc'
    · exact h p hp'
  refine ⟨?_, ?_, ?_, ?_, ?_, ?_, ?_, ?_, ?_⟩
  · intro c p hp
    cases hf : t.free_block_list with
    | nil => rw [allocate_block_eq_empty hf] at hp; exact h p hp
    | cons b rest => rw [allocate_block_eq_cons hf] at hp; exact h p hp
  · intro c hcp p hp
    by_cases hum : c.mapped_block_idx = -1
    · simp [DataTrack.append_entry_config, hum] at hp
      exact h p hp
    · by_cases htr : c.track_name = some t.track_name
      · rw [append_eq_ok hum htr] at hp
        exact hsetNonneg _ _ hcp p hp
      · simp [DataTrack.append_entry_config, hum, htr] at hp
        exact h p hp
  · intro k p hp
    cases hg : dictGet t.entry_config_list k with
    | none => rw [read_eq_none hg] at hp; exact h p hp
    | some c =>
        rw [read_eq_some hg] at hp
        have hc : 0 ≤ c.pending_readers := h (k, c) (dictGet_mem hg)
        exact hsetNonneg _ _ (by simp; omega) p hp
  · intro p hp
    cases hm : (dictKeys t.entry_config_list).max? with
    | none => rw [read_latest_eq_none hm] at hp; exact h p hp
    | some k =>
        obtain ⟨c, hg⟩ := dictGet_isSome_of_mem (natMax?_eq_some_iff.mp hm).1
        rw [read_latest_eq_some hm hg] at hp
        have hc : 0 ≤ c.pending_readers := h (k, c) (dictGet_mem hg)
        exact hsetNonneg _ _ (by simp; omega) p hp
  · intro k hne p hp
    cases hg : dictGet t.entry_config_list k with
    | none => rw [release_eq_none hg] at hp; exact h p hp
    | some c =>
        by_cases hneg : c.pending_readers - 1 < 0
        · exact absurd (by rw [release_eq_raise hg hneg]) hne
        · rw [release_eq_ok hg (by omega)] at hp
          exact hsetNonneg _ _ (by simp; omega) p hp
  · intro k c hg hz
    rw [release_eq_raise hg (by omega)]
  · intro k force p hp
    cases hg : dictGet t.entry_config_list k with
    | none => rw [delete_eq_none hg] at hp; exact h p hp
    | some c =>
        by_cases hok : c.pending_readers = 0 ∨ force = true
        · by_cases hfree : c.mapped_block_idx ∈ t.free_block_list
          · rw [delete_eq_raise hg hok hfree] at hp
            exact h p (mem_of_mem_dictErase hp)
          · rw [delete_eq_ok hg hok hfree] at hp
            exact h p (mem_of_mem_dictErase hp)
        · push_neg at hok
          have hfb : force = false := by
            cases force
            · rfl
            · exact absurd rfl hok.2
          subst hfb
          rw [delete_eq_denied hg hok.1] at hp
          exact h p hp
  · intro force p hp
    cases hm : (dictKeys t.entry_config_list).min? with
    | none => rw [pop_eq_none hm] at hp; exact h p hp
    | some k =>
        obtain ⟨c, hg⟩ := dictGet_isSome_of_mem (natMin?_eq_some_iff.mp hm).1
        by_cases hok : c.pending_readers = 0 ∨ force = true
        · rw [pop_eq_ok force hm hg hok] at hp
          exact h p (mem_of_mem_dictErase hp)
        · push_neg at hok
          have hfb : force = false := by
            cases force
            · rfl
            · exact absurd rfl hok.2
          subst hfb
          rw [pop_eq_denied hm hg hok.1] at hp
          exact h p hp
  · intro c p hp
    by_cases htr : c.track_name = some t.track_name
    · by_cases hfree : c.mapped_block_idx ∈ t.free_block_list
      · rw [free_eq_raise htr hfree] at hp; exact h p hp
      · rw [free_eq_ok htr hfree] at hp; exact h p hp
    · rw [free_eq_mismatch htr] at hp; exact h p hp

/-- Witness for C4 (amended) at a concrete one-entry track. -/
theorem pending_readers_nonneg_witness :
    TrackNonneg (((DataTrack.init "t" 4 1).pushFresh.read_entry_config 0).2) := by
  have h0 : TrackNonneg (DataTrack.init "t" 4 1).pushFresh := by
    have hd : ∀ p ∈ ((DataTrack.init "t" 4 1).pushFresh).entry_config_list,
        0 ≤ p.2.pending_readers := by decide
    exact hd
  exact ((pending_readers_nonneg (DataTrack.init "t" 4 1).pushFresh h0).2.2.1) 0

theorem allocRun_spec (n : Nat) : ∀ (t : DataTrack), n ≤ t.free_block_list.length →
    ((allocRun t n).1.map (fun r => (r.1, r.2.mapped_block_idx)) =
      (t.free_block_list.take n).map (fun b => (SMOS_SUCCESS, b))) ∧
    (allocRun t n).2 = { t with free_block_list := t.free_block_list.drop n } := by
  induction n with
  | zero =>
      intro t h
      constructor
      · simp [allocRun]
      · simp [allocRun]
  | succ n ih =>
      intro t h
      cases hf : t.free_block_list with
      | nil => rw [hf] at h; simp at h
      | cons b rest =>
          have hlen : n ≤ rest.length := by
            rw [hf] at h
            simpa using h
          have hrec := ih { t with free_block_list := rest } hlen
          refine ⟨?_, ?_⟩
          · simp [allocRun, allocate_block_eq_cons hf, hf, hrec.1]
          · simp [allocRun, allocate_block_eq_cons hf, hrec.2, hf]

/-- C10: the free pool is FIFO: on a fresh track the i-th successful
`allocate_block` hands out block i; in general `allocate_block` takes the
front of the pool, while `free_block_mapping` and `delete_entry_config`
append a freed block at the back, so reuse follows exactly the order in
which blocks were freed. -/
theorem free_pool_fifo (name : String) (bs cap n : Nat) (hn : n ≤ cap) :
    ((allocRun (DataTrack.init name bs cap) n).1.map
        (fun r => (r.1, r.2.mapped_block_idx)) =
      (List.range n).map (fun b => (SMOS_SUCCESS, Int.ofNat b))) ∧
    (∀ (t : DataTrack) (c : EntryConfig) (b : Int) (rest : List Int),
      t.free_block_list = b :: rest →
      t.allocate_block c =
        (SMOS_SUCCESS,
         { c with mapped_block_idx := b, track_name := some t.track_name },
         { t with free_block_list := rest })) ∧
    (∀ (t : DataTrack) (c : EntryConfig),
      c.track_name = some t.track_name →
      ¬ c.mapped_block_idx ∈ t.free_block_list →
      (t.free_block_mapping c).2.free_block_list =
        t.free_block_list ++ [c.mapped_block_idx]) ∧
    (∀ (t : DataTrack) (k : Nat) (force : Bool) (c : EntryConfig),
      dictGet t.entry_config_list k = some c →
      (c.pending_readers = 0 ∨ force = true) →
      ¬ c.mapped_block_idx ∈ t.free_block_list →
      (t.delete_entry_config k force).2.free_block_list =
        t.free_block_list ++ [c.mapped_block_idx]) := by
  refine ⟨?_, ?_, ?_, ?_⟩
  · have hlen : n ≤ ((DataTrack.init name bs cap).free_block_list).length := by
      simp [DataTrack.init, hn]
    have htake : (DataTrack.init name bs cap).free_block_list.take n
        = (List.range n).map Int.ofNat := by
      simp [DataTrack.init, ← List.map_take, List.take_range, Nat.min_eq_left hn]
    rw [(allocRun_spec n _ hlen).1, htake, List.map_map]
    rfl
  · intro t c b rest hf
    exact allocate_block_eq_cons hf
  · intro t c htr hfree
    rw [free_eq_ok htr hfree]
  · intro t k force c hg hok hfree
    rw [delete_eq_ok hg hok hfree]

/-- Witness for C10: two allocations on a fresh two-block track hand out
blocks 0 then 1. -/
theorem free_pool_fifo_witness :
    (allocRun (DataTrack.init "t" 4 2) 2).1.map
        (fun r => (r.1, r.2.mapped_block_idx)) =
      [(SMOS_SUCCESS, 0), (SMOS_SUCCESS, 1)] := by
  rw [(free_pool_fifo "t" 4 2 2 (by decide)).1]
  decide

theorem min?_cons_of_lt {a : Nat} {ks : List Nat} (h : ∀ b ∈ ks, a < b) :
    (a :: ks).min? = some a := by
  refine natMin?_eq_some_iff.mpr ⟨List.mem_cons_self _ _, ?_⟩
  intro b hb
  rcases List.mem_cons.mp hb with rfl | hb
  · exact le_refl _
  · exact le_of_lt (h b hb)

theorem appendRun_spec : ∀ (cs : List EntryConfig) (t : DataTrack),
    (∀ c ∈ cs, ¬ c.mapped_block_idx = -1 ∧ c.track_name = some t.track_name) →
    (∀ k ∈ dictKeys t.entry_config_list, k < t.next_key) →
    ((appendRun t cs).1 =
      (List.range' t.next_key cs.length).map (fun k => .ok (SMOS_SUCCESS, k))) ∧
    (appendRun t cs).2 =
      { t with
          entry_config_list := t.entry_config_list ++ (List.range' t.next_key cs.length).zip cs
          next_key := t.next_key + cs.length } := by
  intro cs
  induction cs with
  | nil =>
      intro t hcs hbound
      constructor
      · simp [appendRun]
      · simp [appendRun]
  | cons c rest ih =>
      intro t hcs hbound
      have hc := hcs c (List.mem_cons_self _ _)
      have happ := append_eq_ok hc.1 hc.2
      have hfresh : ¬ t.next_key ∈ dictKeys t.entry_config_list := by
        intro hmem
        exact absurd (hbound _ hmem) (lt_irrefl _)
      have hset : dictSet t.entry_config_list t.next_key c =
          t.entry_config_list ++ [(t.next_key, c)] := dictSet_of_not_mem hfresh
      have hrec := ih
        { t with
            entry_config_list := dictSet t.entry_config_list t.next_key c
            next_key := t.next_key + 1 }
        (fun c' hc' => (hcs c' (List.mem_cons_of_mem _ hc')))
        (by
          intro k hk
          simp only [hset] at hk
          rw [dictKeys] at hk
          rw [List.map_append] at hk
          rcases List.mem_append.mp hk with hk | hk
          · exact Nat.lt_succ_of_lt (hbound k hk)
          · simp at hk
            subst hk
            exact Nat.lt_succ_self _)
      constructor
      · simp only [appendRun, happ, hrec.1, List.length_cons]
        rw [List.range'_succ]
        simp
      · simp only [appendRun, happ, hrec.2, List.length_cons]
        rw [List.range'_succ]
        simp [hset, List.zip_cons_cons, List.append_assoc]
        omega

theorem popRun_sorted : ∀ (l : List (Nat × EntryConfig)) (t : DataTrack),
    t.entry_config_list = l →
    List.Pairwise (· < ·) (dictKeys l) →
    (∀ p ∈ l, p.2.pending_readers = 0) →
    ((popRun t l.length false).1 = l.map (fun p => (SMOS_SUCCESS, some p.2))) ∧
    (popRun t l.length false).2 = { t with entry_config_list := [] } := by
  intro l
  induction l with
  | nil =>
      intro t ht _ _
      constructor
      · simp [popRun]
      · simp [popRun]
        rw [← ht]
  | cons p rest ih =>
      intro t ht hsort hpend
      obtain ⟨k, c⟩ := p
      rw [dictKeys_cons] at hsort
      have hlt : ∀ b ∈ dictKeys rest, k < b := (List.pairwise_cons.mp hsort).1
      have hm : (dictKeys t.entry_config_list).min? = some k := by
        rw [ht, dictKeys_cons]
        exact min?_cons_of_lt hlt
      have hg : dictGet t.entry_config_list k = some c := by
        rw [ht]
        simp [dictGet]
      have hz : c.pending_readers = 0 := hpend (k, c) (List.mem_cons_self _ _)
      have hpop := pop_eq_ok false hm hg (Or.inl hz)
      have herase : dictErase t.entry_config_list k = rest := by
        rw [ht]
        simp [dictErase]
      have hrec := ih { t with entry_config_list := rest } (by simp)
        (List.pairwise_cons.mp hsort).2
        (fun q hq => hpend q (List.mem_cons_of_mem _ hq))
      constructor
      · simp only [List.length_cons, popRun, hpop, herase]
        rw [hrec.1]
        simp
      · simp only [List.length_cons, popRun, hpop, herase]
        rw [hrec.2]

/-- C1: starting from a track with an empty live map, appending entries
yields the consecutive keys `next_key, next_key+1, …` (strictly increasing),
and as many unforced pops then succeed and return exactly the appended
descriptors in append order; moreover any pop that returns a descriptor
returns the descriptor of the smallest live key. -/
theorem fifo_pop (t : DataTrack) (cs : List EntryConfig)
    (hempty : t.entry_config_list = [])
    (hcs : ∀ c ∈ cs, ¬ c.mapped_block_idx = -1 ∧ c.track_name = some t.track_name ∧
      c.pending_readers = 0) :
    ((appendRun t cs).1 =
      (List.range' t.next_key cs.length).map (fun k => .ok (SMOS_SUCCESS, k))) ∧
    ((popRun (appendRun t cs).2 cs.length false).1 =
      cs.map (fun c => (SMOS_SUCCESS, some c))) ∧
    (∀ (u : DataTrack) (force : Bool) (st : Int) (c : EntryConfig),
      (u.pop_entry_config force).1 = (st, some c) →
      ∃ k, (dictKeys u.entry_config_list).min? = some k ∧
        dictGet u.entry_config_list k = some c) := by
  have happ := appendRun_spec cs t
    (fun c hc => ⟨(hcs c hc).1, (hcs c hc).2.1⟩)
    (by rw [hempty]; simp [dictKeys])
  have hlist : (appendRun t cs).2.entry_config_list =
      (List.range' t.next_key cs.length).zip cs := by
    rw [happ.2, hempty]
    simp
  have hlen : ((List.range' t.next_key cs.length).zip cs).length = cs.length := by
    rw [List.length_zip, List.length_range']
    simp
  refine ⟨happ.1, ?_, ?_⟩
  · have hpops := popRun_sorted ((List.range' t.next_key cs.length).zip cs)
      (appendRun t cs).2 hlist
      (by
        rw [dictKeys, List.map_fst_zip _ _ (by rw [List.length_range'])]
        exact List.pairwise_lt_range' _ _)
      (by
        intro p hp
        obtain ⟨a, b⟩ := p
        exact (hcs b (List.of_mem_zip hp).2).2.2)
    rw [← hlen]
    rw [hpops.1]
    have hsnd : ((List.range' t.next_key cs.length).zip cs).map Prod.snd = cs :=
      List.map_snd_zip _ _ (by rw [List.length_range'])
    calc ((List.range' t.next_key cs.length).zip cs).map
            (fun p => (SMOS_SUCCESS, some p.2))
        = (((List.range' t.next_key cs.length).zip cs).map Prod.snd).map
            (fun c => (SMOS_SUCCESS, some c)) := by rw [List.map_map]; rfl
      _ = cs.map (fun c => (SMOS_SUCCESS, some c)) := by rw [hsnd]
  · intro u force st c h
    cases hm : (dictKeys u.entry_config_list).min? with
    | none =>
        rw [pop_eq_none hm] at h
        simp at h
    | some k =>
        obtain ⟨c', hg⟩ := dictGet_isSome_of_mem (natMin?_eq_some_iff.mp hm).1
        by_cases hok : c'.pending_readers = 0 ∨ force = true
        · rw [pop_eq_ok force hm hg hok] at h
          simp at h
          rw [h.2] at hg
          exact ⟨k, rfl, hg⟩
        · push_neg at hok
          have hfb : force = false := by
            cases force
            · rfl
            · exact absurd rfl hok.2
          subst hfb
          rw [pop_eq_denied hm hg hok.1] at h
          simp at h

/-- Witness for C1: appending two descriptors to a fresh track and popping
twice returns them in append order. -/
theorem fifo_pop_witness :
    (popRun (appendRun (DataTrack.init "q" 4 2) [cfgA, cfgB]).2 2 false).1 =
      [(SMOS_SUCCESS, some cfgA), (SMOS_SUCCESS, some cfgB)] := by
  have h := (fifo_pop (DataTrack.init "q" 4 2) [cfgA, cfgB] rfl (by decide)).2.1
  simpa using h

theorem coe_append_singleton (l : List Int) (b : Int) :
    ((l ++ [b] : List Int) : Multiset Int) = (l : Multiset Int) + {b} := by
  rw [← Multiset.coe_add]
  rfl

theorem coe_cons_blocks (l : List Int) (b : Int) :
    ((b :: l : List Int) : Multiset Int) = {b} + (l : Multiset Int) := by
  rw [← Multiset.cons_coe, Multiset.singleton_add]

theorem perm_cons_eraseIdx {α : Type} :
    ∀ (l : List α) (i : Nat) (c : α), l[i]? = some c →
      List.Perm l (c :: l.eraseIdx i) := by
  intro l
  induction l with
  | nil => intro i c h; simp at h
  | cons a rest ih =>
      intro i c h
      cases i with
      | zero =>
          simp at h
          subst h
          simp [List.eraseIdx]
      | succ i =>
          simp at h
          have hrec := ih i c h
          exact (hrec.cons a).trans (List.Perm.swap c a (rest.eraseIdx i))

theorem map_blocks_dictSet (c' : EntryConfig) {l : List (Nat × EntryConfig)}
    {k : Nat} {c : EntryConfig} (hg : dictGet l k = some c)
    (hb : c'.mapped_block_idx = c.mapped_block_idx) :
    (dictSet l k c').map (fun p => p.2.mapped_block_idx) =
      l.map (fun p => p.2.mapped_block_idx) := by
  induction l with
  | nil => simp [dictGet] at hg
  | cons q rest ih =>
      obtain ⟨k₁, v₁⟩ := q
      by_cases h₁ : k₁ = k
      · subst h₁
        simp [dictGet] at hg
        subst hg
        simp [dictSet, hb]
      · simp [dictGet, h₁] at hg
        simp [dictSet, h₁, ih hg]

theorem dictKeys_erase_subset {α : Type} {l : List (Nat × α)} {k k' : Nat}
    (h : k' ∈ dictKeys (dictErase l k)) : k' ∈ dictKeys l := by
  rw [dictKeys] at h
  obtain ⟨p, hp, hpk⟩ := List.mem_map.mp h
  rw [dictKeys]
  exact List.mem_map.mpr ⟨p, mem_of_mem_dictErase hp, hpk⟩

theorem read_latest_eq_junk {t : DataTrack} {k : Nat}
    (hm : (dictKeys t.entry_config_list).max? = some k)
    (hg : dictGet t.entry_config_list k = none) :
    t.read_latest_entry_config = ((SMOS_FAIL, none, none), t) := by
  simp [DataTrack.read_latest_entry_config, hm, hg]

theorem pop_eq_junk {t : DataTrack} {force : Bool} {k : Nat}
    (hm : (dictKeys t.entry_config_list).min? = some k)
    (hg : dictGet t.entry_config_list k = none) :
    t.pop_entry_config force = ((SMOS_FAIL, none), t) := by
  simp [DataTrack.pop_entry_config, hm, hg]

/-- Preservation of the system invariant by every operation. -/
theorem stepOp_inv {cap : Nat} {s : SysState} (op : Op) (h : SysInv cap s) :
    SysInv cap (stepOp s op).1 := by
  obtain ⟨h1, h2⟩ := h
  cases op with
  | alloc c =>
      cases hf : s.track.free_block_list with
      | nil =>
          simp only [stepOp, allocate_block_eq_empty hf]
          rw [if_neg (show ¬ SMOS_FAIL = SMOS_SUCCESS by decide)]
          exact ⟨h1, h2⟩
      | cons b rest =>
          simp only [stepOp, allocate_block_eq_cons hf]
          rw [if_pos trivial]
          constructor
          · simp only [blockBins, liveBlocks, heldBlocks] at h1 ⊢
            rw [hf, coe_cons_blocks] at h1
            simp only [List.map_append, List.map_cons, List.map_nil] at h1 ⊢
            rw [coe_append_singleton]
            rw [← h1]
            abel
          · exact h2
  | append i =>
      cases ha : s.allocated[i]? with
      | none => simp only [stepOp, ha]; exact ⟨h1, h2⟩
      | some c =>
          by_cases hum : c.mapped_block_idx = -1
          · simp only [stepOp, ha, DataTrack.append_entry_config, hum, if_pos rfl]
            exact ⟨h1, h2⟩
          · by_cases htr : c.track_name = some s.track.track_name
            · have happ := append_eq_ok hum htr
              simp only [stepOp, ha, happ]
              have hfresh : ¬ s.track.next_key ∈ dictKeys s.track.entry_config_list := by
                intro hmem
                exact absurd (h2 _ hmem) (lt_irrefl _)
              have hset : dictSet s.track.entry_config_list s.track.next_key c =
                  s.track.entry_config_list ++ [(s.track.next_key, c)] :=
                dictSet_of_not_mem hfresh
              constructor
              · simp only [blockBins, liveBlocks, heldBlocks] at h1 ⊢
                simp only [hset, List.map_append, List.map_cons, List.map_nil]
                rw [coe_append_singleton]
                have hperm := perm_cons_eraseIdx s.allocated i c ha
                have hc : ((s.allocated.map
                      (fun x : EntryConfig => x.mapped_block_idx)) : Multiset Int) =
                    {c.mapped_block_idx} +
                      ↑((s.allocated.eraseIdx i).map
                        (fun x : EntryConfig => x.mapped_block_idx)) := by
                  rw [← coe_cons_blocks]
                  exact Multiset.coe_eq_coe.mpr
                    (List.Perm.map (fun x : EntryConfig => x.mapped_block_idx) hperm)
                rw [hc] at h1
                rw [← h1]
                abel
              · intro k hk
                simp only [hset] at hk
                rw [dictKeys, List.map_append] at hk
                rcases List.mem_append.mp hk with hk | hk
                · exact Nat.lt_succ_of_lt (h2 k hk)
                · simp at hk
                  subst hk
                  exact Nat.lt_succ_self _
            · simp only [stepOp, ha, DataTrack.append_entry_config, hum, htr]
              exact ⟨h1, h2⟩
  | read k =>
      cases hg : dictGet s.track.entry_config_list k with
      | none => simp only [stepOp, read_eq_none hg]; exact ⟨h1, h2⟩
      | some c =>
          simp only [stepOp, read_eq_some hg]
          have hmem : k ∈ dictKeys s.track.entry_config_list := by
            rw [dictKeys]
            exact List.mem_map.mpr ⟨(k, c), dictGet_mem hg, rfl⟩
          constructor
          · simp only [blockBins, liveBlocks] at h1 ⊢
            rw [map_blocks_dictSet
              { c with pending_readers := c.pending_readers + 1 } hg rfl]
            exact h1
          · intro k' hk'
            rw [dictKeys_set_of_mem hmem] at hk'
            exact h2 k' hk'
  | readLatest =>
      cases hm : (dictKeys s.track.entry_config_list).max? with
      | none => simp only [stepOp, read_latest_eq_none hm]; exact ⟨h1, h2⟩
      | some k =>
          obtain ⟨c, hg⟩ := dictGet_isSome_of_mem (natMax?_eq_some_iff.mp hm).1
          simp only [stepOp, read_latest_eq_some hm hg]
          have hmem : k ∈ dictKeys s.track.entry_config_list := (natMax?_eq_some_iff.mp hm).1
          constructor
          · simp only [blockBins, liveBlocks] at h1 ⊢
            rw [map_blocks_dictSet
              { c with pending_readers := c.pending_readers + 1 } hg rfl]
            exact h1
          · intro k' hk'
            rw [dictKeys_set_of_mem hmem] at hk'
            exact h2 k' hk'
  | release k =>
      cases hg : dictGet s.track.entry_config_list k with
      | none => simp only [stepOp, release_eq_none hg]; exact ⟨h1, h2⟩
      | some c =>
          have hmem : k ∈ dictKeys s.track.entry_config_list := by
            rw [dictKeys]
            exact List.mem_map.mpr ⟨(k, c), dictGet_mem hg, rfl⟩
          have hgoal : SysInv cap
              { s with track :=
                  { s.track with entry_config_list :=
                      (dictSet s.track.entry_config_list k
                        { c with pending_readers := c.pending_readers - 1 }) } } := by
            constructor
            · simp only [blockBins, liveBlocks] at h1 ⊢
              rw [map_blocks_dictSet
                { c with pending_readers := c.pending_readers - 1 } hg rfl]
              exact h1
            · intro k' hk'
              rw [dictKeys_set_of_mem hmem] at hk'
              exact h2 k' hk'
          by_cases hneg : c.pending_readers - 1 < 0
          · simp only [stepOp, release_eq_raise hg hneg]
            exact hgoal
          · simp only [stepOp, release_eq_ok hg (by omega)]
            exact hgoal
  | delete k force =>
      cases hg : dictGet s.track.entry_config_list k with
      | none => simp only [stepOp, delete_eq_none hg]; exact ⟨h1, h2⟩
      | some c =>
          by_cases hok : c.pending_readers = 0 ∨ force = true
          · have hnodup : (blockBins s).Nodup := by
              rw [h1]
              exact Multiset.coe_nodup.mpr
                ((List.nodup_range _).map (fun a b hab => Int.ofNat.inj hab))
            have hlive : c.mapped_block_idx ∈ liveBlocks s.track := by
              rw [liveBlocks]
              exact List.mem_map.mpr ⟨(k, c), dictGet_mem hg, rfl⟩
            have hfree : ¬ c.mapped_block_idx ∈ s.track.free_block_list := by
              intro hmemf
              have hcount := Multiset.nodup_iff_count_le_one.mp hnodup c.mapped_block_idx
              simp only [blockBins, Multiset.count_add] at hcount
              have c1 : 0 < Multiset.count c.mapped_block_idx
                  (s.track.free_block_list : Multiset Int) :=
                Multiset.count_pos.mpr (by simpa using hmemf)
              have c2 : 0 < Multiset.count c.mapped_block_idx
                  (liveBlocks s.track : Multiset Int) :=
                Multiset.count_pos.mpr (by simpa using hlive)
              omega
            simp only [stepOp, delete_eq_ok hg hok hfree]
            constructor
            · simp only [blockBins, liveBlocks] at h1 ⊢
              have hperm := (dict_perm_erase hg).map
                (fun p => p.2.mapped_block_idx)
              have hc : (s.track.entry_config_list.map
                    (fun p => p.2.mapped_block_idx) : Multiset Int) =
                  {c.mapped_block_idx} +
                    ↑((dictErase s.track.entry_config_list k).map
                      (fun p => p.2.mapped_block_idx)) := by
                rw [← coe_cons_blocks]
                exact Multiset.coe_eq_coe.mpr hperm
              rw [hc] at h1
              rw [coe_append_singleton]
              rw [← h1]
              abel
            · intro k' hk'
              exact h2 k' (dictKeys_erase_subset hk')
          · push_neg at hok
            have hfb : force = false := by
              cases force
              · rfl
              · exact absurd rfl hok.2
            subst hfb
            simp only [stepOp, delete_eq_denied hg hok.1]
            exact ⟨h1, h2⟩
  | pop force =>
      cases hm : (dictKeys s.track.entry_config_list).min? with
      | none => simp only [stepOp, pop_eq_none hm]; exact ⟨h1, h2⟩
      | some k =>
          obtain ⟨c, hg⟩ := dictGet_isSome_of_mem (natMin?_eq_some_iff.mp hm).1
          by_cases hok : c.pending_readers = 0 ∨ force = true
          · simp only [stepOp, pop_eq_ok force hm hg hok]
            constructor
            · simp only [blockBins, liveBlocks, heldBlocks] at h1 ⊢
              have hperm := (dict_perm_erase hg).map
                (fun p => p.2.mapped_block_idx)
              have hc : (s.track.entry_config_list.map
                    (fun p => p.2.mapped_block_idx) : Multiset Int) =
                  {c.mapped_block_idx} +
                    ↑((dictErase s.track.entry_config_list k).map
                      (fun p => p.2.mapped_block_idx)) := by
                rw [← coe_cons_blocks]
                exact Multiset.coe_eq_coe.mpr hperm
              rw [hc] at h1
              rw [List.map_append]
              simp only [List.map_cons, List.map_nil]
              rw [coe_append_singleton]
              rw [← h1]
              abel
            · intro k' hk'
              exact h2 k' (dictKeys_erase_subset hk')
          · push_neg at hok
            have hfb : force = false := by
              cases force
              · rfl
              · exact absurd rfl hok.2
            subst hfb
            simp only [stepOp, pop_eq_denied hm hg hok.1]
            exact ⟨h1, h2⟩
  | free i =>
      cases hp : s.popped[i]? with
      | none => simp only [stepOp, hp]; exact ⟨h1, h2⟩
      | some c =>
          by_cases htr : c.track_name = some s.track.track_name
          · by_cases hfree : c.mapped_block_idx ∈ s.track.free_block_list
            · simp only [stepOp, hp, free_eq_raise htr hfree]
              exact ⟨h1, h2⟩
            · simp only [stepOp, hp, free_eq_ok htr hfree]
              constructor
              · simp only [blockBins, liveBlocks, heldBlocks] at h1 ⊢
                have hperm := perm_cons_eraseIdx s.popped i c hp
                have hc : (s.popped.map (fun x => x.mapped_block_idx) : Multiset Int) =
                    {c.mapped_block_idx} +
                      ↑((s.popped.eraseIdx i).map (fun x => x.mapped_block_idx)) := by
                  rw [← coe_cons_blocks]
                  exact Multiset.coe_eq_coe.mpr
                    (hperm.map (fun x => x.mapped_block_idx))
                rw [hc] at h1
                rw [coe_append_singleton]
                rw [← h1]
                abel
              · exact h2
          · simp only [stepOp, hp, free_eq_mismatch htr]
            exact ⟨h1, h2⟩

theorem runOps_inv {cap : Nat} : ∀ (ops : List Op) (s : SysState),
    SysInv cap s → SysInv cap (runOps s ops).1 := by
  intro ops
  induction ops with
  | nil => intro s h; exact h
  | cons op rest ih =>
      intro s h
      exact ih (stepOp s op).1 (stepOp_inv op h)

theorem initSys_inv (name : String) (bs cap : Nat) : SysInv cap (initSys name bs cap) := by
  constructor
  · simp [blockBins, initSys, DataTrack.init, liveBlocks, heldBlocks]
  · intro k hk
    simp [initSys, DataTrack.init, dictKeys] at hk

/-- C2 (amended): after every sequence of track operations starting from a
fresh track, the block indices 0..max_capacity-1 are distributed over four
bins — the free pool, the live entries, the allocated-but-not-yet-appended
descriptors, and the popped-but-not-yet-freed descriptors — with every block
in exactly one bin (the combined multiset equals the duplicate-free block
range); in particular the four bin sizes sum to max_capacity. -/
theorem block_conservation (name : String) (bs cap : Nat) (ops : List Op) :
    blockBins (runOps (initSys name bs cap) ops).1 =
      ((List.range cap).map Int.ofNat : Multiset Int) ∧
    (blockBins (runOps (initSys name bs cap) ops).1).Nodup ∧
    Multiset.card (blockBins (runOps (initSys name bs cap) ops).1) = cap := by
  have h := runOps_inv ops (initSys name bs cap) (initSys_inv name bs cap)
  refine ⟨h.1, ?_, ?_⟩
  · rw [h.1]
    exact Multiset.coe_nodup.mpr
      ((List.nodup_range _).map (fun a b hab => Int.ofNat.inj hab))
  · rw [h.1]
    simp [Multiset.coe_card]

/-- C2 (counterexample): immediately after a successful `allocate_block`
completes, the allocated block sits in the caller's descriptor only, so it is
in none of the three bins the claim names (free pool, live entries,
popped-but-not-freed); the three bin sizes sum to max_capacity - 1, not
max_capacity. -/
theorem three_bin_partition_fails :
    ¬ (0 : Int) ∈ threeBins ((stepOp (initSys "t" 4 1) (.alloc freshCfg)).1) ∧
    ¬ Multiset.card (threeBins ((stepOp (initSys "t" 4 1) (.alloc freshCfg)).1)) =
      ((stepOp (initSys "t" 4 1) (.alloc freshCfg)).1).track.max_capacity := by
  constructor
  · decide
  · decide

theorem allocate_block_next (t : DataTrack) (c : EntryConfig) :
    (t.allocate_block c).2.2.next_key = t.next_key := by
  cases hf : t.free_block_list with
  | nil => rw [allocate_block_eq_empty hf]
  | cons b rest => rw [allocate_block_eq_cons hf]

theorem read_next (t : DataTrack) (k : Nat) :
    (t.read_entry_config k).2.next_key = t.next_key := by
  cases hg : dictGet t.entry_config_list k with
  | none => rw [read_eq_none hg]
  | some c => rw [read_eq_some hg]

theorem read_latest_next (t : DataTrack) :
    t.read_latest_entry_config.2.next_key = t.next_key := by
  cases hm : (dictKeys t.entry_config_list).max? with
  | none => rw [read_latest_eq_none hm]
  | some k =>
      cases hg : dictGet t.entry_config_list k with
      | none => rw [read_latest_eq_junk hm hg]
      | some c => rw [read_latest_eq_some hm hg]

theorem release_next (t : DataTrack) (k : Nat) :
    (t.release_read_reference k).2.next_key = t.next_key := by
  cases hg : dictGet t.entry_config_list k with
  | none => rw [release_eq_none hg]
  | some c =>
      by_cases hneg : c.pending_readers - 1 < 0
      · rw [release_eq_raise hg hneg]
      · rw [release_eq_ok hg (by omega)]

theorem delete_next (t : DataTrack) (k : Nat) (force : Bool) :
    (t.delete_entry_config k force).2.next_key = t.next_key := by
  cases hg : dictGet t.entry_config_list k with
  | none => rw [delete_eq_none hg]
  | some c =>
      by_cases hok : c.pending_readers = 0 ∨ force = true
      · by_cases hfree : c.mapped_block_idx ∈ t.free_block_list
        · rw [delete_eq_raise hg hok hfree]
        · rw [delete_eq_ok hg hok hfree]
      · push_neg at hok
        have hfb : force = false := by
          cases force
          · rfl
          · exact absurd rfl hok.2
        subst hfb
        rw [delete_eq_denied hg hok.1]

theorem pop_next (t : DataTrack) (force : Bool) :
    (t.pop_entry_config force).2.next_key = t.next_key := by
  cases hm : (dictKeys t.entry_config_list).min? with
  | none => rw [pop_eq_none hm]
  | some k =>
      cases hg : dictGet t.entry_config_list k with
      | none => rw [pop_eq_junk hm hg]
      | some c =>
          by_cases hok : c.pending_readers = 0 ∨ force = true
          · rw [pop_eq_ok force hm hg hok]
          · push_neg at hok
            have hfb : force = false := by
              cases force
              · rfl
              · exact absurd rfl hok.2
            subst hfb
            rw [pop_eq_denied hm hg hok.1]

theorem free_next (t : DataTrack) (c : EntryConfig) :
    (t.free_block_mapping c).2.next_key = t.next_key := by
  by_cases htr : c.track_name = some t.track_name
  · by_cases hfree : c.mapped_block_idx ∈ t.free_block_list
    · rw [free_eq_raise htr hfree]
    · rw [free_eq_ok htr hfree]
  · rw [free_eq_mismatch htr]

theorem stepOp_next_mono (s : SysState) (op : Op) :
    s.track.next_key ≤ (stepOp s op).1.track.next_key := by
  cases op with
  | alloc c =>
      cases hf : s.track.free_block_list with
      | nil =>
          simp only [stepOp, allocate_block_eq_empty hf]
          rw [if_neg (show ¬ SMOS_FAIL = SMOS_SUCCESS by decide)]
      | cons b rest =>
          simp only [stepOp, allocate_block_eq_cons hf]
          rw [if_pos trivial]
  | append i =>
      cases ha : s.allocated[i]? with
      | none => simp only [stepOp, ha]; exact le_refl _
      | some c =>
          by_cases hum : c.mapped_block_idx = -1
          · simp only [stepOp, ha, DataTrack.append_entry_config, hum, if_pos rfl]
            exact le_refl _
          · by_cases htr : c.track_name = some s.track.track_name
            · simp only [stepOp, ha, append_eq_ok hum htr]
              exact Nat.le_succ _
            · simp only [stepOp, ha, DataTrack.append_entry_config, hum, htr]
              exact le_refl _
  | read k =>
      simp only [stepOp]
      rw [read_next]
  | readLatest =>
      simp only [stepOp]
      rw [read_latest_next]
  | release k =>
      simp only [stepOp]
      rw [release_next]
  | delete k force =>
      simp only [stepOp]
      rw [delete_next]
  | pop force =>
      cases hc : (s.track.pop_entry_config force).1.2 with
      | none =>
          simp only [stepOp, hc]
          rw [pop_next]
      | some c =>
          simp only [stepOp, hc]
          rw [pop_next]
  | free i =>
      cases hp : s.popped[i]? with
      | none => simp only [stepOp, hp]; exact le_refl _
      | some c =>
          cases hr : (s.track.free_block_mapping c).1 with
          | ok v =>
              simp only [stepOp, hp, hr]
              rw [free_next]
          | error e => simp only [stepOp, hp, hr]; exact le_refl _

theorem stepOp_log {s : SysState} {op : Op} {k : Nat}
    (h : (stepOp s op).2 = some k) :
    k = s.track.next_key ∧
      (stepOp s op).1.track.next_key = s.track.next_key + 1 := by
  cases op with
  | alloc c =>
      exfalso
      cases hf : s.track.free_block_list with
      | nil =>
          simp only [stepOp, allocate_block_eq_empty hf] at h
          rw [if_neg (show ¬ SMOS_FAIL = SMOS_SUCCESS by decide)] at h
          simp at h
      | cons b rest =>
          simp only [stepOp, allocate_block_eq_cons hf] at h
          rw [if_pos trivial] at h
          simp at h
  | append i =>
      cases ha : s.allocated[i]? with
      | none =>
          simp only [stepOp, ha] at h
          exact Option.noConfusion h
      | some c =>
          by_cases hum : c.mapped_block_idx = -1
          · have hnone : (stepOp s (.append i)).2 = none := by
              simp [stepOp, ha, DataTrack.append_entry_config, hum]
            rw [hnone] at h
            exact Option.noConfusion h
          · by_cases htr : c.track_name = some s.track.track_name
            · simp only [stepOp, ha, append_eq_ok hum htr] at h ⊢
              simp at h
              refine ⟨h.symm, ?_⟩
              trivial
            · have hnone : (stepOp s (.append i)).2 = none := by
                simp [stepOp, ha, DataTrack.append_entry_config, hum, htr]
              rw [hnone] at h
              exact Option.noConfusion h
  | read k' =>
      simp only [stepOp] at h
      exact Option.noConfusion h
  | readLatest =>
      simp only [stepOp] at h
      exact Option.noConfusion h
  | release k' =>
      simp only [stepOp] at h
      exact Option.noConfusion h
  | delete k' force =>
      simp only [stepOp] at h
      exact Option.noConfusion h
  | pop force =>
      cases hc : (s.track.pop_entry_config force).1.2 with
      | none =>
          simp only [stepOp, hc] at h
          exact Option.noConfusion h
      | some c =>
          simp only [stepOp, hc] at h
          exact Option.noConfusion h
  | free i =>
      cases hp : s.popped[i]? with
      | none =>
          simp only [stepOp, hp] at h
          exact Option.noConfusion h
      | some c =>
          cases hr : (s.track.free_block_mapping c).1 with
          | ok v =>
              simp only [stepOp, hp, hr] at h
              exact Option.noConfusion h
          | error e =>
              simp only [stepOp, hp, hr] at h
              exact Option.noConfusion h

theorem runOps_log_lb : ∀ (ops : List Op) (s : SysState) (k : Nat),
    k ∈ (runOps s ops).2 → s.track.next_key ≤ k := by
  intro ops
  induction ops with
  | nil => intro s k h; simp [runOps] at h
  | cons op rest ih =>
      intro s k h
      simp only [runOps] at h
      rcases List.mem_append.mp h with h | h
      · cases hlog : (stepOp s op).2 with
        | none => rw [hlog] at h; simp at h
        | some k0 =>
            rw [hlog] at h
            simp at h
            subst h
            exact le_of_eq (stepOp_log hlog).1.symm
      · exact le_trans (stepOp_next_mono s op) (ih _ _ h)

theorem runOps_log_sorted : ∀ (ops : List Op) (s : SysState),
    List.Pairwise (· < ·) (runOps s ops).2 := by
  intro ops
  induction ops with
  | nil => intro s; simp [runOps]
  | cons op rest ih =>
      intro s
      simp only [runOps]
      rw [List.pairwise_append]
      refine ⟨?_, ih _, ?_⟩
      · cases hlog : (stepOp s op).2 <;> simp
      · intro a ha b hb
        cases hlog : (stepOp s op).2 with
        | none => rw [hlog] at ha; simp at ha
        | some k0 =>
            rw [hlog] at ha
            simp at ha
            subst ha
            have hl := stepOp_log hlog
            have hb' := runOps_log_lb rest (stepOp s op).1 b hb
            rw [hl.2] at hb'
            rw [hl.1]
            omega

/-- C3: across any operation sequence on a track, the keys returned by
successful appends are pairwise strictly increasing in order of return
(hence a key is never reused, also after its entry is deleted or popped);
a successful append returns the current `next_key` and advances it by one,
and no operation ever decreases `next_key`. -/
theorem append_keys_monotonic :
    (∀ (s : SysState) (ops : List Op), List.Pairwise (· < ·) (runOps s ops).2) ∧
    (∀ (s : SysState) (op : Op), s.track.next_key ≤ (stepOp s op).1.track.next_key) ∧
    (∀ (s : SysState) (op : Op) (k : Nat), (stepOp s op).2 = some k →
      k = s.track.next_key ∧
        (stepOp s op).1.track.next_key = s.track.next_key + 1) :=
  ⟨fun s ops => runOps_log_sorted ops s, fun s op => stepOp_next_mono s op,
   fun _ _ _ h => stepOp_log h⟩

/-- Witness for C3 at a concrete run: after an allocation, an append emits
key 0 and advances next_key to 1. -/
theorem append_keys_monotonic_witness :
    (stepOp (stepOp (initSys "t" 4 1) (.alloc freshCfg)).1 (.append 0)).2 = some 0 ∧
    (stepOp (stepOp (initSys "t" 4 1) (.alloc freshCfg)).1
        (.append 0)).1.track.next_key = 1 := by
  refine ⟨rfl, ?_⟩
  have h := append_keys_monotonic.2.2
    (stepOp (initSys "t" 4 1) (.alloc freshCfg)).1 (.append 0) 0 rfl
  rw [h.2]
  decide

theorem read_keys_eq (tr : DataTrack) (k : Nat) :
    dictKeys ((tr.read_entry_config k).2).entry_config_list =
      dictKeys tr.entry_config_list := by
  cases hg : dictGet tr.entry_config_list k with
  | none => rw [read_eq_none hg]
  | some c =>
      rw [read_eq_some hg]
      exact dictKeys_set_of_mem (by
        rw [dictKeys]
        exact List.mem_map.mpr ⟨(k, c), dictGet_mem hg, rfl⟩)

theorem trackReadFold_pending : ∀ (ks : List Nat) (tr : DataTrack) (k : Nat)
    (c : EntryConfig), dictGet tr.entry_config_list k = some c →
    dictGet (trackReadFold tr ks).entry_config_list k =
      some { c with pending_readers := c.pending_readers + (ks.count k : Int) } := by
  intro ks
  induction ks with
  | nil =>
      intro tr k c hg
      simp only [trackReadFold, List.foldl_nil, List.count_nil]
      rw [hg]
      simp
  | cons i ks' ih =>
      intro tr k c hg
      by_cases hik : i = k
      · subst hik
        have hstep : dictGet ((tr.read_entry_config i).2).entry_config_list i =
            some { c with pending_readers := c.pending_readers + 1 } := by
          rw [read_eq_some hg]
          exact dictGet_set_self
        have hrec := ih ((tr.read_entry_config i).2) i _ hstep
        simp only [trackReadFold, List.foldl_cons] at hrec ⊢
        rw [hrec]
        have hcount : ((i :: ks').count i : Int) = (ks'.count i : Int) + 1 := by
          rw [List.count_cons]
          simp
        rw [hcount]
        congr 1
        simp
        omega
      · have hstep : dictGet ((tr.read_entry_config i).2).entry_config_list k =
            some c := by
          cases hgi : dictGet tr.entry_config_list i with
          | none => rw [read_eq_none hgi]; exact hg
          | some ci =>
              rw [read_eq_some hgi]
              rw [dictGet_set_ne hik]
              exact hg
        have hrec := ih ((tr.read_entry_config i).2) k c hstep
        simp only [trackReadFold, List.foldl_cons] at hrec ⊢
        rw [hrec]
        have hcount : (i :: ks').count k = ks'.count k := by
          rw [List.count_cons]
          simp [hik]
        rw [hcount]

theorem object_read_missing {o : SharedMemoryObject} {idx : Nat}
    (hne : o.track_list ≠ [])
    (hmiss : ∀ tr ∈ o.track_list, dictGet tr.entry_config_list idx = none) :
    o.read_entry_config idx = (.ok (SMOS_FAIL, none), o) := by
  obtain ⟨t0, ts, hlist⟩ : ∃ t0 ts, o.track_list = t0 :: ts := by
    cases hl : o.track_list with
    | nil => exact absurd hl hne
    | cons a b => exact ⟨a, b, rfl⟩
  have ht0 : t0.read_entry_config idx = ((SMOS_FAIL, none), t0) :=
    read_eq_none (hmiss t0 (by rw [hlist]; exact List.mem_cons_self _ _))
  have hts : ∀ tr ∈ ts, tr.read_entry_config idx = ((SMOS_FAIL, none), tr) :=
    fun tr htr =>
      read_eq_none (hmiss tr (by rw [hlist]; exact List.mem_cons_of_mem _ htr))
  simp only [SharedMemoryObject.read_entry_config, hlist, List.map_cons,
    List.map_map, ht0]
  have hstat : ts.map ((fun r => r.1.1) ∘ (fun tr => tr.read_entry_config idx)) =
      ts.map (fun _ => SMOS_FAIL) :=
    List.map_congr_left (fun tr htr => by simp [Function.comp, hts tr htr])
  have hsnd : ts.map ((fun r => r.2) ∘ (fun tr => tr.read_entry_config idx)) = ts := by
    have : ts.map ((fun r => r.2) ∘ (fun tr => tr.read_entry_config idx)) =
        ts.map (fun tr => tr) :=
      List.map_congr_left (fun tr htr => by simp [Function.comp, hts tr htr])
    rw [this, List.map_id']
  rw [hstat, hsnd]
  have hall : ((ts.map (fun _ => SMOS_FAIL)).all (fun st => st == SMOS_FAIL)) = true := by
    rw [List.all_eq_true]
    intro x hx
    obtain ⟨tr, _, hxe⟩ := List.mem_map.mp hx
    rw [← hxe]
    simp
  rw [if_pos hall]
  rw [if_neg (show ¬ SMOS_FAIL = SMOS_SUCCESS by decide)]
  rw [← hlist]

theorem object_read_success {o : SharedMemoryObject} {idx : Nat}
    (hne : o.track_list ≠ [])
    (hl : ∀ tr ∈ o.track_list, (dictGet tr.entry_config_list idx).isSome = true) :
    o.read_entry_config idx =
      (.ok (SMOS_SUCCESS,
        some (o.track_list.map (fun tr => (tr.read_entry_config idx).1.2))),
       { o with track_list :=
           o.track_list.map (fun tr => (tr.read_entry_config idx).2) }) := by
  have hst : ∀ tr ∈ o.track_list, (tr.read_entry_config idx).1.1 = SMOS_SUCCESS := by
    intro tr htr
    obtain ⟨c, hc⟩ := Option.isSome_iff_exists.mp (hl tr htr)
    rw [read_eq_some hc]
  obtain ⟨t0, ts, hlist⟩ : ∃ t0 ts, o.track_list = t0 :: ts := by
    cases hl' : o.track_list with
    | nil => exact absurd hl' hne
    | cons a b => exact ⟨a, b, rfl⟩
  simp only [SharedMemoryObject.read_entry_config]
  rw [show (o.track_list.map (fun tr => tr.read_entry_config idx)).map
      (fun r => r.1.1) = o.track_list.map (fun tr => (tr.read_entry_config idx).1.1)
    from by rw [List.map_map]; rfl]
  rw [show o.track_list.map (fun tr => (tr.read_entry_config idx).1.1) =
      o.track_list.map (fun _ => SMOS_SUCCESS) from
    List.map_congr_left (fun tr htr => hst tr htr)]
  rw [hlist]
  simp only [List.map_cons]
  have hall : ((ts.map (fun _ => SMOS_SUCCESS)).all
      (fun st => st == SMOS_SUCCESS)) = true := by
    rw [List.all_eq_true]
    intro x hx
    obtain ⟨tr, _, hxe⟩ := List.mem_map.mp hx
    rw [← hxe]
    simp
  rw [if_pos hall]
  rw [if_pos trivial]
  simp only [List.map_map]
  rfl

theorem batchLoop_spec : ∀ (pre : List Nat) (o : SharedMemoryObject)
    (m : Nat) (rest : List Nat),
    o.track_list ≠ [] →
    (∀ k ∈ pre, ∀ tr ∈ o.track_list,
      (dictGet tr.entry_config_list k).isSome = true) →
    (∀ tr ∈ o.track_list, dictGet tr.entry_config_list m = none) →
    ∃ batch, batchLoop o (pre ++ m :: rest) =
      (.ok (SMOS_FAIL, batch),
       { o with track_list := o.track_list.map (fun tr => trackReadFold tr pre) }) := by
  intro pre
  induction pre with
  | nil =>
      intro o m rest hne hpre hm
      refine ⟨[none], ?_⟩
      simp only [List.nil_append, batchLoop, object_read_missing hne hm]
      rw [if_neg (show ¬ SMOS_FAIL = SMOS_SUCCESS by decide)]
      have : o.track_list.map (fun tr => trackReadFold tr []) = o.track_list := by
        rw [show (fun tr => trackReadFold tr []) = (id : DataTrack → DataTrack) from rfl]
        exact List.map_id _
      rw [this]
  | cons k pre' ih =>
      intro o m rest hne hpre hm
      have hk := fun tr htr => hpre k (List.mem_cons_self _ _) tr htr
      have hread := object_read_success hne hk
      set o1 : SharedMemoryObject :=
        { o with track_list :=
            o.track_list.map (fun tr => (tr.read_entry_config k).2) } with ho1
      have hne1 : o1.track_list ≠ [] := by
        rw [ho1]
        simp only []
        intro hcon
        exact hne (List.map_eq_nil_iff.mp hcon)
      have hpre1 : ∀ k' ∈ pre', ∀ tr ∈ o1.track_list,
          (dictGet tr.entry_config_list k').isSome = true := by
        intro k' hk' tr htr
        rw [ho1] at htr
        obtain ⟨tr0, htr0, htre⟩ := List.mem_map.mp htr
        rw [← htre]
        have hkeys := read_keys_eq tr0 k
        have horig := hpre k' (List.mem_cons_of_mem _ hk') tr0 htr0
        rw [Option.isSome_iff_exists] at horig ⊢
        obtain ⟨c, hc⟩ := horig
        have hmem : k' ∈ dictKeys tr0.entry_config_list := by
          rw [dictKeys]
          exact List.mem_map.mpr ⟨(k', c), dictGet_mem hc, rfl⟩
        rw [← hkeys] at hmem
        obtain ⟨c', hc'⟩ := dictGet_isSome_of_mem hmem
        exact ⟨c', hc'⟩
      have hm1 : ∀ tr ∈ o1.track_list, dictGet tr.entry_config_list m = none := by
        intro tr htr
        rw [ho1] at htr
        obtain ⟨tr0, htr0, htre⟩ := List.mem_map.mp htr
        rw [← htre]
        rw [dictGet_eq_none, read_keys_eq]
        rw [← dictGet_eq_none]
        exact hm tr0 htr0
      obtain ⟨batch, hloop⟩ := ih o1 m rest hne1 hpre1 hm1
      refine ⟨some (o.track_list.map (fun tr => (tr.read_entry_config k).1.2)) :: batch, ?_⟩
      simp only [List.cons_append, batchLoop, hread]
      rw [if_pos trivial]
      simp only [List.append_eq] at hloop ⊢
      rw [hloop]
      simp only [List.map_map]
      rfl

/-- C7: a batched read that hits a missing key returns overall `SMOS_FAIL`
with no descriptor batch, yet the pending-reader increments performed for
the keys read before the missing one are kept (each such key's stored count
grows by its number of occurrences in that prefix): nothing is rolled back. -/
theorem batch_read_no_rollback (store : SharedMemoryObjectStore) (name : String)
    (o : SharedMemoryObject) (pre : List Nat) (m : Nat) (rest : List Nat)
    (hobj : objDictGet store.object_dict name = some o)
    (hne : o.track_list ≠ [])
    (hpre : ∀ k ∈ pre, ∀ tr ∈ o.track_list,
      (dictGet tr.entry_config_list k).isSome = true)
    (hm : ∀ tr ∈ o.track_list, dictGet tr.entry_config_list m = none) :
    (store.batch_read_entry_config name (pre ++ m :: rest)).1 =
      .ok (SMOS_FAIL, none) ∧
    (store.batch_read_entry_config name (pre ++ m :: rest)).2 =
      { store with object_dict :=
          (objDictSet store.object_dict name
            { o with track_list :=
                o.track_list.map (fun tr => trackReadFold tr pre) }) } ∧
    (∀ tr ∈ o.track_list, ∀ k ∈ pre, ∀ c,
      dictGet tr.entry_config_list k = some c →
      dictGet (trackReadFold tr pre).entry_config_list k =
        some { c with pending_readers :=
          c.pending_readers + (pre.count k : Int) }) := by
  obtain ⟨batch, hloop⟩ := batchLoop_spec pre o m rest hne hpre hm
  refine ⟨?_, ?_, ?_⟩
  · simp only [SharedMemoryObjectStore.batch_read_entry_config, hobj, hloop]
    rw [if_neg (show ¬ SMOS_FAIL = SMOS_SUCCESS by decide)]
  · simp only [SharedMemoryObjectStore.batch_read_entry_config, hobj, hloop]
    rw [if_neg (show ¬ SMOS_FAIL = SMOS_SUCCESS by decide)]
  · intro tr _ k hk c hc
    exact trackReadFold_pending pre tr k c hc

/-- Witness for C7: batching keys [0, 5] where key 5 is missing fails overall
while leaving key 0's pending-reader count incremented. -/
theorem batch_read_no_rollback_witness :
    (sampleStore.batch_read_entry_config "q" [0, 5]).1 = .ok (SMOS_FAIL, none) ∧
    dictGet (trackReadFold busyTrack [0]).entry_config_list 0 =
      some { busyCfg with pending_readers := 2 } := by
  have h := batch_read_no_rollback sampleStore "q" sampleObj [0] 5 [] rfl
    (by decide) (by decide) (by decide)
  refine ⟨h.1, ?_⟩
  have h2 := h.2.2 busyTrack (by decide) 0 (by decide) busyCfg rfl
  rw [h2]
  decide

/-- C9: the source's copy loop iterates over the integer `track_count`
itself and therefore raises `TypeError` before writing any track, for every
object, while the specified loop visits exactly the indices
`0..track_count-1`; an error result never equals a successful one. -/
theorem push_copy_loop_type_error :
    pushCopyLoopIndices 1 = .error "TypeError" ∧
    pushCopyLoopIndicesSpec 1 = .ok [0] ∧
    (∀ track_count : Nat, pushCopyLoopIndices track_count = .error "TypeError") ∧
    (∀ track_count : Nat,
      pushCopyLoopIndicesSpec track_count = .ok (List.range track_count)) :=
  ⟨rfl, rfl, fun _ => rfl, fun _ => rfl⟩

example : (DataTrack.init "t" 8 3).free_block_list = [0, 1, 2] := by decide

example :
    ((DataTrack.init "t" 8 2).allocate_block
      { dtype := none, shape := none, is_numpy := false, track_name := none,
        mapped_block_idx := -1, pending_readers := 0 }).1 = SMOS_SUCCESS := by decide

end SMOS
